import Mathlib

/-!
Verification of the sharebase repository's core subsystems against its
natural-language specification: the identity-preserving tree cache
(`sb/models.go`), the chunked upload writer (`web/models.go`), the client
pool (`web` package) and the `fs` entry index.  Go values are shallowly
embedded: Go maps become association lists, Go pointers become arena
indices (object identity = index equality), `nil`-pointer dereferences and
type-assertion panics become `Option.none`, and fallible remote calls take
their fetch results as explicit `Except` arguments.
-/

namespace Sharebase

/-! ## Go map embedding

A Go `map[K]V` is modelled as an association list with at most one binding
per key; assignment replaces an existing binding in place, deletion removes
it. -/

/-- Association-list embedding of a Go map. -/
def GoMap (α β : Type) : Type := List (α × β)

/-- Go map read `m[k]` (the found value, or `none`). -/
def mapLookup {α β : Type} [DecidableEq α] (m : GoMap α β) (k : α) : Option β :=
  match m with
  | [] => none
  | (k', v') :: t => if k' = k then some v' else mapLookup t k

/-- Go map assignment `m[k] = v`: replaces the binding if present, else appends. -/
def mapInsert {α β : Type} [DecidableEq α] (m : GoMap α β) (k : α) (v : β) : GoMap α β :=
  match m with
  | [] => [(k, v)]
  | (k', v') :: t => if k' = k then (k, v) :: t else (k', v') :: mapInsert t k v

/-- Go map deletion `delete(m, k)`: removes the key's binding (every
binding of `k`, so that the association list stays a faithful map even
without a separate no-duplicate-keys invariant). -/
def mapErase {α β : Type} [DecidableEq α] (m : GoMap α β) (k : α) : GoMap α β :=
  match m with
  | [] => []
  | (k', v') :: t => if k' = k then mapErase t k else (k', v') :: mapErase t k

theorem mapLookup_insert_self {α β : Type} [DecidableEq α] (m : GoMap α β) (k : α) (v : β) :
    mapLookup (mapInsert m k v) k = some v := by
  induction m with
  | nil => simp [mapInsert, mapLookup]
  | cons h t ih =>
    obtain ⟨k', v'⟩ := h
    by_cases hk : k' = k
    · simp [mapInsert, hk, mapLookup]
    · simp [mapInsert, hk, mapLookup, ih]

theorem mapLookup_insert_ne {α β : Type} [DecidableEq α] (m : GoMap α β) (k k' : α) (v : β)
    (h : k ≠ k') : mapLookup (mapInsert m k v) k' = mapLookup m k' := by
  induction m with
  | nil => simp [mapInsert, mapLookup, h]
  | cons hd t ih =>
    obtain ⟨k₀, v₀⟩ := hd
    by_cases hk : k₀ = k
    · subst hk
      simp [mapInsert, mapLookup, h]
    · simp only [mapInsert, if_neg hk]
      by_cases hk' : k₀ = k'
      · simp [mapLookup, hk']
      · simp [mapLookup, hk', ih]

/-! ## The `objects` child index (`sb/models.go`, type `objects`)

`objects` holds an ordered sequence of children plus two position maps.
The element type is a parameter; the Go interface methods `ID()`/`Name()`
become explicit function arguments `idf`/`namef`, exactly as the dynamic
dispatch sites use them. -/

/-- The `objects` struct of `sb/models.go`: children sequence plus
id-to-position and name-to-position maps. -/
structure Objects (α : Type) where
  children : List α
  ids : GoMap Int Nat
  names : GoMap String Nat

/-- `objects.init`: the capacity argument only preallocates, so the result
is the empty collection. -/
def Objects.empty {α : Type} : Objects α := ⟨[], [], []⟩

/-- `(*objects).ChildByID`. -/
def Objects.childByID {α : Type} (o : Objects α) (id : Int) : Option α :=
  match mapLookup o.ids id with
  | some i => o.children[i]?
  | none => none

/-- `(*objects).ChildByName`.  (On a stale in-bounds index Go would return
that element; an out-of-range index — impossible while the maps are in
sync — would panic, modelled as `none`.) -/
def Objects.childByName {α : Type} (o : Objects α) (name : String) : Option α :=
  match mapLookup o.names name with
  | some i => o.children[i]?
  | none => none

/-- `(*objects).add`: refuses a child whose id or name is already indexed,
otherwise appends it and indexes both keys at the new position.  Returns
`(collection, index, added)`. -/
def Objects.add {α : Type} (idf : α → Int) (namef : α → String)
    (o : Objects α) (c : α) : Objects α × Nat × Bool :=
  match mapLookup o.ids (idf c) with
  | some _ => (o, 0, false)
  | none =>
    match mapLookup o.names (namef c) with
    | some _ => (o, 0, false)
    | none =>
      let ix := o.children.length
      (⟨o.children ++ [c], mapInsert o.ids (idf c) ix, mapInsert o.names (namef c) ix⟩,
        ix, true)

/-- The shift loop inside `(*objects).del`: for `i, c := range
o.children[x0+1:]`, writes `o.children[x0+i] = c` and re-points both maps
at the shifted position.  The ranged slice is captured before any write
(each read index is above every earlier write index, so the values read
are the original ones). -/
def Objects.delShift {α : Type} (idf : α → Int) (namef : α → String)
    (o : Objects α) (x0 : Nat) : Objects α :=
  let tail := o.children.drop (x0 + 1)
  ((List.range tail.length).zip tail).foldl
    (fun acc ic =>
      ⟨acc.children.set (x0 + ic.1) ic.2,
       mapInsert acc.ids (idf ic.2) (x0 + ic.1),
       mapInsert acc.names (namef ic.2) (x0 + ic.1)⟩)
    o

/-- `(*objects).del`: locates the child through both maps (requiring the
two positions to agree), runs the shift loop, then unconditionally deletes
the map keys of the element at the last slot.  Note the children slice is
never truncated.  `none` models the panic on indexing an empty slice. -/
def Objects.del {α : Type} (idf : α → Int) (namef : α → String)
    (o : Objects α) (c : α) : Option (Objects α × Bool) :=
  match mapLookup o.ids (idf c) with
  | none => some (o, false)
  | some x0 =>
    match mapLookup o.names (namef c) with
    | none => some (o, false)
    | some x1 =>
      if x0 ≠ x1 then some (o, false)
      else
        let o1 := Objects.delShift idf namef o x0
        match o1.children[o1.children.length - 1]? with
        | some last =>
          some (⟨o1.children, mapErase o1.ids (idf last), mapErase o1.names (namef last)⟩,
            true)
        | none => none

/-! ## The `fs` package's entry index (`fs/entries.go`) -/

/-- `fs.EntryKind`. -/
inductive EntryKind where
  | documentKind
  | folderKind
deriving DecidableEq

/-- `fs.EntryName`: a kind-tagged name (`DocumentName` / `FolderName`). -/
abbrev FsEntryName : Type := EntryKind × String

/-- `fs.EntryID`: a kind-tagged integer id (`DocumentID` / `FolderID`). -/
abbrev FsEntryID : Type := EntryKind × Int

/-- The `fs.entries` collection: items plus name and id position maps. -/
structure FsEntries (E : Type) where
  items : List E
  names : GoMap FsEntryName Nat
  ids : GoMap FsEntryID Nat

/-- `(*entries).EntryByID` — the straightforward present/absent lookup. -/
def FsEntries.entryByID {E : Type} (e : FsEntries E) (id : FsEntryID) : Option E × Bool :=
  match mapLookup e.ids id with
  | some i => (e.items[i]?, true)
  | none => (none, false)

/-- `(*entries).EntryByName` as written in the source: the `!ok` branch
returns `(e.items[i], true)` — with `i` the map's zero value `0` — and the
found branch returns `(nil, false)`.  The outer `none` models the panic of
`e.items[0]` on an empty items slice. -/
def FsEntries.entryByName {E : Type} (e : FsEntries E) (name : FsEntryName) :
    Option (Option E × Bool) :=
  match mapLookup e.names name with
  | none =>
    match e.items[0]? with
    | some x => some (some x, true)
    | none => none
  | some _ => some (none, false)

/-! ## Chunked upload (`web/models.go`)

Flush accounting depends only on byte counts, so payloads and the patch
buffer are modelled by their sizes.  The remote side is an oracle
`PatchResp` mapping the flush index to the parsed
`NewLargeDocumentResponse.CurrentSize` (`none` = transport/unmarshal
failure of that PATCH). -/

/-- `web.PatchSize` = 512 KiB. -/
def PatchSize : Nat := 524288

/-- Upload failure conditions: an opaque transport error, or the distinct
"Last patch of document ... uploaded nothing." condition. -/
inductive UpErr where
  | transport
  | stall
deriving DecidableEq

/-- Patch response oracle: flush index to reported total size. -/
abbrev PatchResp : Type := Nat → Option Nat

/-- The loop of `(*Folder).newLargeDocument`: each iteration copies
`w = min(PatchSize, remaining)` bytes into the buffer, breaks when `w = 0`,
otherwise issues one PATCH and checks the parsed `CurrentSize` against
zero.  Accumulates the list of flushed chunk sizes. -/
def nldLoop (resp : PatchResp) (flushed : List Nat) (remaining : Nat) :
    List Nat × Option UpErr :=
  let w := min PatchSize remaining
  if _h : w = 0 then (flushed, none)
  else
    match resp flushed.length with
    | none => (flushed ++ [w], some .transport)
    | some n =>
      if n = 0 then (flushed ++ [w], some .stall)
      else nldLoop resp (flushed ++ [w]) (remaining - w)
termination_by remaining
decreasing_by omega

/-- `(*Folder).newLargeDocument` for a payload of `S` bytes: run the patch
loop, then (on success) issue the finalize POST.  Result: flushed chunk
sizes, error, and whether finalize was reached. -/
def newLargeDocument (resp : PatchResp) (S : Nat) : List Nat × Option UpErr × Bool :=
  match nldLoop resp [] S with
  | (fl, none) => (fl, none, true)
  | (fl, some e) => (fl, some e, false)

/-- The chunk decomposition `[P, P, ..., r]` that a single `S`-byte stream
is cut into by a `PatchSize`-bounded buffer (specification-side helper). -/
def chunkList (remaining : Nat) : List Nat :=
  let w := min PatchSize remaining
  if _h : w = 0 then [] else w :: chunkList (remaining - w)
termination_by remaining
decreasing_by omega

/-- `web.DocumentWriter`, reduced to its flush-relevant state: the byte
count of `dataBuffer`, the sizes of the PATCHes issued so far, and whether
the finalize POST of `Close` was reached. -/
structure DocumentWriter where
  bufLen : Nat
  flushed : List Nat
  finalized : Bool
deriving DecidableEq

/-- `(*DocumentWriter).patch`: issues one PATCH transmitting the buffered
bytes (the request drains `dataBuffer`), then parses the response and
fails with the distinct stall condition when `CurrentSize == 0`. -/
def DocumentWriter.patch (resp : PatchResp) (w : DocumentWriter) :
    DocumentWriter × Option UpErr :=
  let w' : DocumentWriter := ⟨0, w.flushed ++ [w.bufLen], w.finalized⟩
  match resp w.flushed.length with
  | none => (w', some .transport)
  | some n => if n = 0 then (w', some .stall) else (w', none)

theorem DocumentWriter.patch_fst (resp : PatchResp) (w : DocumentWriter) :
    (DocumentWriter.patch resp w).1 = ⟨0, w.flushed ++ [w.bufLen], w.finalized⟩ := by
  unfold DocumentWriter.patch
  cases resp w.flushed.length with
  | none => rfl
  | some n => by_cases h : n = 0 <;> simp [h]

/-- The slow-path loop of `(*DocumentWriter).Write`: while bytes remain,
buffer `limit = min(available, len(remaining))` of them, then PATCH —
note the PATCH is unconditional, so the final partial chunk of a slow-path
write is flushed even though the buffer is not full. -/
def DocumentWriter.writeLoop (resp : PatchResp) (w : DocumentWriter) (remaining : Nat) :
    DocumentWriter × Option UpErr :=
  if _hrem : remaining = 0 then (w, none)
  else
    let limit := min (PatchSize - w.bufLen) remaining
    let pr := DocumentWriter.patch resp ⟨w.bufLen + limit, w.flushed, w.finalized⟩
    match pr.2 with
    | some e => (pr.1, some e)
    | none => DocumentWriter.writeLoop resp pr.1 (remaining - limit)
termination_by w.bufLen + remaining
decreasing_by
  simp only [DocumentWriter.patch_fst]
  have hP : 0 < PatchSize := by decide
  omega

/-- `(*DocumentWriter).Write` of a `p`-byte slice: the fast path only
buffers when everything fits in the available space; otherwise the slow
path loop runs. -/
def DocumentWriter.write (resp : PatchResp) (w : DocumentWriter) (p : Nat) :
    DocumentWriter × Option UpErr :=
  if p ≤ PatchSize - w.bufLen then (⟨w.bufLen + p, w.flushed, w.finalized⟩, none)
  else DocumentWriter.writeLoop resp w p

/-- `(*DocumentWriter).Close`: flush the buffer only if non-empty, then
issue the finalize POST (modelled as setting `finalized`). -/
def DocumentWriter.close (resp : PatchResp) (w : DocumentWriter) :
    DocumentWriter × Option UpErr :=
  if 0 < w.bufLen then
    let pr := DocumentWriter.patch resp w
    match pr.2 with
    | some e => (pr.1, some e)
    | none => ({ pr.1 with finalized := true }, none)
  else ({ w with finalized := true }, none)

/-- Driver: feed a sequence of write sizes to a `DocumentWriter`,
stopping at the first error. -/
def documentWriterWrites (resp : PatchResp) : DocumentWriter → List Nat →
    DocumentWriter × Option UpErr
  | w, [] => (w, none)
  | w, p :: rest =>
    match DocumentWriter.write resp w p with
    | (w', none) => documentWriterWrites resp w' rest
    | (w', some e) => (w', some e)

/-- Driver: an upload through `DocumentWriter` = a fresh writer, a
sequence of `Write` calls, then `Close`. -/
def documentWriterUpload (resp : PatchResp) (writes : List Nat) :
    DocumentWriter × Option UpErr :=
  match documentWriterWrites resp ⟨0, [], false⟩ writes with
  | (w, none) => DocumentWriter.close resp w
  | (w, some e) => (w, some e)

/-- A response oracle that never fails and never reports size zero. -/
def goodResp (resp : PatchResp) : Prop := ∀ k, ∃ n, resp k = some n ∧ n ≠ 0

/-- Concrete oracle: always reports size 1. -/
def okResp : PatchResp := fun _ => some 1

/-- Concrete oracle: always reports the same nonzero size 100 (the total
never increases after the first flush). -/
def stagnantResp : PatchResp := fun _ => some 100

/-! ### Upload accounting lemmas -/

theorem patchSize_pos : 0 < PatchSize := by decide

theorem chunkList_zero : chunkList 0 = [] := by
  rw [chunkList]
  simp

theorem chunkList_pos {r : Nat} (h : 0 < r) :
    chunkList r = min PatchSize r :: chunkList (r - min PatchSize r) := by
  rw [chunkList]
  have hP := patchSize_pos
  have hw : ¬ (min PatchSize r = 0) := by omega
  simp [hw]

theorem chunkList_small {r : Nat} (h0 : 0 < r) (h1 : r ≤ PatchSize) :
    chunkList r = [r] := by
  rw [chunkList_pos h0]
  have hmin : min PatchSize r = r := by omega
  rw [hmin, Nat.sub_self, chunkList_zero]

theorem chunkList_length : ∀ r : Nat, (chunkList r).length = (r + PatchSize - 1) / PatchSize := by
  intro r
  induction r using Nat.strong_induction_on with
  | _ r ih =>
    have hP := patchSize_pos
    rcases Nat.eq_zero_or_pos r with hr | hr
    · subst hr
      rw [chunkList_zero]
      have : 0 + PatchSize - 1 < PatchSize := by omega
      rw [List.length_nil, Nat.div_eq_of_lt this]
    · have h2 : r + PatchSize - 1 = (r - 1) + PatchSize := by omega
      rw [chunkList_pos hr, List.length_cons, h2, Nat.add_div_right _ hP]
      by_cases hle : r ≤ PatchSize
      · have hmin : min PatchSize r = r := by omega
        rw [hmin, Nat.sub_self, chunkList_zero]
        have : r - 1 < PatchSize := by omega
        rw [List.length_nil, Nat.div_eq_of_lt this]
      · have hmin : min PatchSize r = PatchSize := by omega
        rw [hmin, ih (r - PatchSize) (by omega)]
        have h3 : r - PatchSize + PatchSize - 1 = r - 1 := by omega
        rw [h3]

theorem chunkList_mem {r c : Nat} (h : c ∈ chunkList r) : 0 < c ∧ c ≤ PatchSize := by
  induction r using Nat.strong_induction_on with
  | _ r ih =>
    rcases Nat.eq_zero_or_pos r with hr | hr
    · subst hr; rw [chunkList_zero] at h; cases h
    · rw [chunkList_pos hr] at h
      have hP := patchSize_pos
      rcases List.mem_cons.mp h with hc | hc
      · subst hc
        constructor <;> omega
      · exact ih (r - min PatchSize r) (by omega) hc

theorem goodResp_okResp : goodResp okResp := by
  intro k
  exact ⟨1, rfl, one_ne_zero⟩

theorem goodResp_stagnantResp : goodResp stagnantResp := by
  intro k
  exact ⟨100, rfl, by omega⟩

theorem nldLoop_good {resp : PatchResp} (hresp : goodResp resp) :
    ∀ rem fl, nldLoop resp fl rem = (fl ++ chunkList rem, none) := by
  intro rem
  induction rem using Nat.strong_induction_on with
  | _ rem ih =>
    intro fl
    rcases Nat.eq_zero_or_pos rem with hr | hr
    · subst hr
      rw [nldLoop, chunkList_zero]
      simp
    · have hP := patchSize_pos
      have hw : ¬ (min PatchSize rem = 0) := by omega
      obtain ⟨n, hn, hn0⟩ := hresp fl.length
      rw [nldLoop]
      simp only [hw, dite_false, hn, hn0, if_false]
      rw [ih (rem - min PatchSize rem) (by omega), chunkList_pos hr]
      simp

theorem writeLoop_good {resp : PatchResp} (hresp : goodResp resp) :
    ∀ rem fl fin, DocumentWriter.writeLoop resp ⟨0, fl, fin⟩ rem =
      (⟨0, fl ++ chunkList rem, fin⟩, none) := by
  intro rem
  induction rem using Nat.strong_induction_on with
  | _ rem ih =>
    intro fl fin
    rcases Nat.eq_zero_or_pos rem with hr | hr
    · subst hr
      rw [DocumentWriter.writeLoop, chunkList_zero]
      simp
    · have hP := patchSize_pos
      obtain ⟨n, hn, hn0⟩ := hresp fl.length
      rw [DocumentWriter.writeLoop]
      simp only [Nat.pos_iff_ne_zero.mp hr, dite_false, Nat.sub_zero, Nat.zero_add,
        DocumentWriter.patch, hn, hn0, if_false]
      rw [ih (rem - min PatchSize rem) (by omega), chunkList_pos hr]
      simp

theorem write_small (resp : PatchResp) (w : DocumentWriter) (p : Nat)
    (h : p ≤ PatchSize - w.bufLen) :
    DocumentWriter.write resp w p = (⟨w.bufLen + p, w.flushed, w.finalized⟩, none) := by
  simp [DocumentWriter.write, h]

theorem write_large {resp : PatchResp} (hresp : goodResp resp) (fl : List Nat) (fin : Bool)
    (p : Nat) (h : PatchSize < p) :
    DocumentWriter.write resp ⟨0, fl, fin⟩ p = (⟨0, fl ++ chunkList p, fin⟩, none) := by
  rw [DocumentWriter.write, if_neg (by simp; omega)]
  exact writeLoop_good hresp p fl fin

theorem close_empty (resp : PatchResp) (w : DocumentWriter) (h : w.bufLen = 0) :
    DocumentWriter.close resp w = ({ w with finalized := true }, none) := by
  rw [DocumentWriter.close, if_neg (by omega)]

theorem close_flush {resp : PatchResp} (hresp : goodResp resp) (w : DocumentWriter)
    (h : 0 < w.bufLen) :
    DocumentWriter.close resp w = (⟨0, w.flushed ++ [w.bufLen], true⟩, none) := by
  obtain ⟨n, hn, hn0⟩ := hresp w.flushed.length
  rw [DocumentWriter.close, if_pos h]
  simp [DocumentWriter.patch, hn, hn0]

/-- A single-`Write` upload flushes exactly the chunk decomposition of `S`
and reaches finalize. -/
theorem documentWriterUpload_single {resp : PatchResp} (hresp : goodResp resp) (S : Nat) :
    documentWriterUpload resp [S] = (⟨0, chunkList S, true⟩, none) := by
  by_cases hS : S ≤ PatchSize
  · have h1 : documentWriterWrites resp ⟨0, [], false⟩ [S] = (⟨S, [], false⟩, none) := by
      simp only [documentWriterWrites]
      rw [write_small resp _ S (by simpa using hS)]
      simp
    rw [documentWriterUpload, h1]
    show DocumentWriter.close resp ⟨S, [], false⟩ = (⟨0, chunkList S, true⟩, none)
    rcases Nat.eq_zero_or_pos S with hS0 | hS0
    · subst hS0
      rw [close_empty resp _ rfl, chunkList_zero]
    · rw [close_flush hresp _ hS0, chunkList_small hS0 hS]
      simp
  · have h1 : documentWriterWrites resp ⟨0, [], false⟩ [S] =
        (⟨0, chunkList S, false⟩, none) := by
      simp only [documentWriterWrites]
      rw [write_large hresp [] false S (by omega)]
      simp
    rw [documentWriterUpload, h1]
    show DocumentWriter.close resp ⟨0, chunkList S, false⟩ = (⟨0, chunkList S, true⟩, none)
    rw [close_empty resp _ rfl]

/-! ### Stall behaviour (`CurrentSize == 0`) -/

theorem nldLoop_stall (resp : PatchResp) (fl : List Nat) (rem : Nat)
    (hr : 0 < rem) (h0 : resp fl.length = some 0) :
    nldLoop resp fl rem = (fl ++ [min PatchSize rem], some .stall) := by
  have hP := patchSize_pos
  have hw : ¬ (min PatchSize rem = 0) := by omega
  rw [nldLoop]
  simp [hw, h0]

theorem writeLoop_stall (resp : PatchResp) (w : DocumentWriter) (rem : Nat)
    (hr : 0 < rem) (h0 : resp w.flushed.length = some 0) :
    DocumentWriter.writeLoop resp w rem =
      (⟨0, w.flushed ++ [w.bufLen + min (PatchSize - w.bufLen) rem], w.finalized⟩,
        some .stall) := by
  rw [DocumentWriter.writeLoop]
  simp [Nat.pos_iff_ne_zero.mp hr, DocumentWriter.patch, h0]

theorem close_stall (resp : PatchResp) (w : DocumentWriter)
    (hb : 0 < w.bufLen) (h0 : resp w.flushed.length = some 0) :
    DocumentWriter.close resp w =
      (⟨0, w.flushed ++ [w.bufLen], w.finalized⟩, some .stall) := by
  rw [DocumentWriter.close, if_pos hb]
  simp [DocumentWriter.patch, h0]

/-! ### No flush is ever empty -/

theorem writeLoop_flushes_pos (resp : PatchResp) :
    ∀ n rem (w : DocumentWriter), w.bufLen + rem ≤ n → ∀ x : Nat,
      x ∈ (DocumentWriter.writeLoop resp w rem).1.flushed → x ∈ w.flushed ∨ 0 < x := by
  intro n
  induction n using Nat.strong_induction_on with
  | _ n ih =>
    intro rem w hn x hx
    rcases Nat.eq_zero_or_pos rem with hr | hr
    · subst hr
      rw [DocumentWriter.writeLoop] at hx
      simp at hx
      exact .inl hx
    · have hP := patchSize_pos
      rw [DocumentWriter.writeLoop] at hx
      simp only [Nat.pos_iff_ne_zero.mp hr, dite_false] at hx
      have hlimpos : 0 < w.bufLen + min (PatchSize - w.bufLen) rem := by omega
      rcases hresp : resp w.flushed.length with _ | m
      · simp only [DocumentWriter.patch, hresp] at hx
        simp at hx
        rcases hx with hx | hx
        · exact .inl hx
        · subst hx; exact .inr hlimpos
      · by_cases hm : m = 0
        · subst hm
          simp only [DocumentWriter.patch, hresp, if_pos rfl] at hx
          simp at hx
          rcases hx with hx | hx
          · exact .inl hx
          · subst hx; exact .inr hlimpos
        · simp only [DocumentWriter.patch, hresp, if_neg hm] at hx
          have hrec := ih (0 + (rem - min (PatchSize - w.bufLen) rem))
            (by omega) (rem - min (PatchSize - w.bufLen) rem)
            ⟨0, w.flushed ++ [w.bufLen + min (PatchSize - w.bufLen) rem], w.finalized⟩
            (by simp) x hx
          rcases hrec with hmem | hpos
          · simp at hmem
            rcases hmem with hmem | hmem
            · exact .inl hmem
            · subst hmem; exact .inr hlimpos
          · exact .inr hpos

theorem write_flushes_pos (resp : PatchResp) (w : DocumentWriter) (p : Nat) (x : Nat)
    (hx : x ∈ (DocumentWriter.write resp w p).1.flushed) : x ∈ w.flushed ∨ 0 < x := by
  rw [DocumentWriter.write] at hx
  by_cases h : p ≤ PatchSize - w.bufLen
  · rw [if_pos h] at hx
    exact .inl hx
  · rw [if_neg h] at hx
    exact writeLoop_flushes_pos resp (w.bufLen + p) p w le_rfl x hx

theorem close_flushes_pos (resp : PatchResp) (w : DocumentWriter) (x : Nat)
    (hx : x ∈ (DocumentWriter.close resp w).1.flushed) : x ∈ w.flushed ∨ 0 < x := by
  rw [DocumentWriter.close] at hx
  by_cases h : 0 < w.bufLen
  · rw [if_pos h] at hx
    rcases hresp : resp w.flushed.length with _ | m
    · simp only [DocumentWriter.patch, hresp] at hx
      simp at hx
      rcases hx with hx | hx
      · exact .inl hx
      · subst hx; exact .inr h
    · by_cases hm : m = 0 <;>
        simp only [DocumentWriter.patch, hresp, hm, if_pos, if_neg, ite_true, ite_false] at hx <;>
        simp at hx <;>
        rcases hx with hx | hx
      · exact .inl hx
      · subst hx; exact .inr h
      · exact .inl hx
      · subst hx; exact .inr h
  · rw [if_neg h] at hx
    exact .inl hx

theorem documentWriterWrites_flushes_pos (resp : PatchResp) :
    ∀ (writes : List Nat) (w : DocumentWriter) (x : Nat),
      x ∈ (documentWriterWrites resp w writes).1.flushed → x ∈ w.flushed ∨ 0 < x := by
  intro writes
  induction writes with
  | nil =>
    intro w x hx
    simp only [documentWriterWrites] at hx
    exact .inl hx
  | cons p rest ih =>
    intro w x hx
    simp only [documentWriterWrites] at hx
    rcases hw : DocumentWriter.write resp w p with ⟨w', e⟩
    cases e with
    | none =>
      rw [hw] at hx
      rcases ih w' x hx with hmem | hpos
      · have := write_flushes_pos resp w p x (by rw [hw]; exact hmem)
        exact this
      · exact .inr hpos
    | some err =>
      rw [hw] at hx
      exact write_flushes_pos resp w p x (by rw [hw]; exact hx)

/-- Every flush issued during any `DocumentWriter` upload (any write
split, any oracle) transmits at least one byte. -/
theorem documentWriterUpload_flushes_pos (resp : PatchResp) (writes : List Nat) (x : Nat)
    (hx : x ∈ (documentWriterUpload resp writes).1.flushed) : 0 < x := by
  rw [documentWriterUpload] at hx
  rcases hw : documentWriterWrites resp ⟨0, [], false⟩ writes with ⟨w', e⟩
  have hbase : ∀ y : Nat, y ∈ w'.flushed → 0 < y := by
    intro y hy
    have := documentWriterWrites_flushes_pos resp writes ⟨0, [], false⟩ y
      (by rw [hw]; exact hy)
    rcases this with hmem | hpos
    · cases hmem
    · exact hpos
  cases e with
  | none =>
    rw [hw] at hx
    rcases close_flushes_pos resp w' x hx with hmem | hpos
    · exact hbase x hmem
    · exact hpos
  | some err =>
    rw [hw] at hx
    exact hbase x hx

theorem chunkList_786432 : chunkList 786432 = [524288, 262144] := by
  rw [chunkList_pos (by omega)]
  have hmin : min PatchSize 786432 = 524288 := by simp only [PatchSize]; omega
  have hsub : (786432 : Nat) - min PatchSize 786432 = 262144 := by
    simp only [PatchSize]; omega
  rw [hsub, hmin, chunkList_small (by omega) (by simp only [PatchSize]; omega)]

theorem chunkList_1572864 : chunkList 1572864 = [524288, 524288, 524288] := by
  rw [chunkList_pos (by omega)]
  have hmin : min PatchSize 1572864 = 524288 := by simp only [PatchSize]; omega
  have hsub : (1572864 : Nat) - min PatchSize 1572864 = 1048576 := by
    simp only [PatchSize]; omega
  rw [hsub, hmin, chunkList_pos (by omega)]
  have hmin2 : min PatchSize 1048576 = 524288 := by simp only [PatchSize]; omega
  have hsub2 : (1048576 : Nat) - min PatchSize 1048576 = 524288 := by
    simp only [PatchSize]; omega
  rw [hsub2, hmin2, chunkList_small (by omega) (by simp only [PatchSize]; omega)]

/-! ## The client pool (`web`, `ClientPool`)

Clients are arena indices into the pool state's `arena` list (allocation
order); object identity is index equality.  `url.URL` round-tripping of
the data-center string is modelled as the identity, which is exact for
already-normalized URL strings; the token mangling of `Cache` is
independent of it. -/

/-- `web.PhoenixTokenPrefix` = "PHOENIX-TOKEN " (note the trailing space). -/
def phoenixHeaderToken : String := "PHOENIX-TOKEN "

/-- The flush-relevant fields of `web.Client`: the data-center URL string
and the `phoenixToken` Authorization value set by `NewClient`. -/
structure GoClient where
  dataCenter : String
  phoenixToken : String
deriving DecidableEq

/-- `web.NewClient` (parameter validation for empty strings omitted — all
scenarios use non-empty arguments). -/
def NewClient (dataCenter token : String) : GoClient :=
  ⟨dataCenter, phoenixHeaderToken ++ token⟩

/-- `web.clientSubPool`: all clients ever created in this bucket, the
LIFO free list of indices, and the in-use map from client to its index. -/
structure ClientSubPool where
  clients : List Nat
  cache : List Nat
  inuse : GoMap Nat Nat

/-- `web.newClientSubPool`. -/
def newClientSubPool : ClientSubPool := ⟨[], [], []⟩

/-- `web.ClientPool` plus the client arena. -/
structure ClientPoolState where
  subPools : GoMap (String × String) ClientSubPool
  arena : List GoClient

/-- `web.NewClientPool` (with an empty arena). -/
def NewClientPool : ClientPoolState := ⟨[], []⟩

/-- `(*clientSubPool).getClient`: pops the most recently cached index and
marks that client in-use; `(none, _)` when the free list is empty.  (An
out-of-range cached index — impossible for states built by the pool's own
operations — would panic in Go; it is modelled as a miss.) -/
def ClientSubPool.getClient (sp : ClientSubPool) : Option Nat × ClientSubPool :=
  let length := sp.cache.length
  if length = 0 then (none, sp)
  else
    match sp.cache[length - 1]? with
    | some index =>
      match sp.clients[index]? with
      | some client =>
        (some client, ⟨sp.clients, sp.cache.take (length - 1), mapInsert sp.inuse client index⟩)
      | none => (none, sp)
    | none => (none, sp)

/-- `(*clientSubPool).cacheClient`: re-files a known in-use client at its
original index, registers an unknown client at a fresh index, and pushes
the index on the LIFO free list. -/
def ClientSubPool.cacheClient (sp : ClientSubPool) (c : Nat) : ClientSubPool :=
  let ip :=
    match mapLookup sp.inuse c with
    | some index => (index, sp)
    | none => (sp.clients.length, ⟨sp.clients ++ [c], sp.cache, sp.inuse⟩)
  ⟨ip.2.clients, ip.2.cache ++ [ip.1], mapErase ip.2.inuse c⟩

/-- `(*ClientPool).Client`: borrow a cached client for the exact
`(dataCenter, token)` key, else construct a fresh one (which is not
registered in the sub-pool until it is cached).  `getOrCreateSubPool`
registers the sub-pool in both cases. -/
def ClientPoolState.client (p : ClientPoolState) (dataCenter token : String) :
    Nat × ClientPoolState :=
  let key := (dataCenter, token)
  let sp := (mapLookup p.subPools key).getD newClientSubPool
  match sp.getClient with
  | (some c, sp') => (c, ⟨mapInsert p.subPools key sp', p.arena⟩)
  | (none, sp') =>
    (p.arena.length, ⟨mapInsert p.subPools key sp', p.arena ++ [NewClient dataCenter token]⟩)

/-- `(*ClientPool).Cache`: derives the bucket key from the client itself —
`c.DataCenter.String()` and `c.phoenixToken[len(PhoenixTokenPrefix)+1:]`,
i.e. the stored token with its first byte sliced off — then files the
client in that bucket.  An unknown arena reference (impossible) is a
no-op. -/
def ClientPoolState.cache (p : ClientPoolState) (c : Nat) : ClientPoolState :=
  match p.arena[c]? with
  | none => p
  | some cl =>
    let key := (cl.dataCenter, cl.phoenixToken.drop (phoenixHeaderToken.length + 1))
    let sp := (mapLookup p.subPools key).getD newClientSubPool
    ⟨mapInsert p.subPools key (sp.cacheClient c), p.arena⟩

/-! ## The tree cache (`sb/models.go`)

Nodes live in per-kind arenas inside a `Heap`; a Go pointer to a
`Library`/`Folder`/`Document` is the node's arena index, so object
identity is index equality.  `Root.idCache` and `Root.missing` map a raw
integer id to a `libFldDoc` bundle of one optional arena index per kind.
Panics (`nil`-pointer dereference, failed type assertion) are `none`. -/

/-- The identifying fields of `web.Library`. -/
structure WebLibrary where
  libraryID : Int
  libraryName : String

/-- The identifying fields of `web.Document`. -/
structure WebDocument where
  documentID : Int
  documentName : String

/-- `web.Folder`: id, name and the embedded one-level listings. -/
inductive WebFolder where
  | mk (folderID : Int) (folderName : String)
      (embFolders : List WebFolder) (embDocuments : List WebDocument)

/-- `web.Folder.FolderID`. -/
def WebFolder.folderID : WebFolder → Int
  | .mk i _ _ _ => i

/-- `web.Folder.FolderName`. -/
def WebFolder.folderName : WebFolder → String
  | .mk _ n _ _ => n

/-- `web.Folder.Embedded.Folders`. -/
def WebFolder.embFolders : WebFolder → List WebFolder
  | .mk _ _ fs _ => fs

/-- `web.Folder.Embedded.Documents`. -/
def WebFolder.embDocuments : WebFolder → List WebDocument
  | .mk _ _ _ ds => ds

/-- A Go pointer to a ShareBase `Object`: the root, or a kind-tagged
arena index. -/
inductive ObjRef where
  | root
  | lib (i : Nat)
  | fld (i : Nat)
  | doc (i : Nat)
deriving DecidableEq

/-- A `Library` node: its web state and its `folders.objects` index. -/
structure LibraryNode where
  lib : WebLibrary
  objs : Objects ObjRef

/-- A `Folder` node: `DotDot` parent, web state, `objects` index. -/
structure FolderNode where
  dotDot : ObjRef
  fld : WebFolder
  objs : Objects ObjRef

/-- A `Document` node: its containing `Folder` and web state. -/
structure DocumentNode where
  folderRef : Nat
  doc : WebDocument

/-- The three per-kind node arenas. -/
structure Heap where
  libs : List LibraryNode
  flds : List FolderNode
  docs : List DocumentNode

/-- Dynamic dispatch of `Object.ID()` (the root returns the dummy 0).
Refs are always in range in states built by the model's own operations;
a dangling ref defaults to 0. -/
def Heap.idOf (h : Heap) : ObjRef → Int
  | .root => 0
  | .lib i => ((h.libs[i]?).map fun n => n.lib.libraryID).getD 0
  | .fld i => ((h.flds[i]?).map fun n => n.fld.folderID).getD 0
  | .doc i => ((h.docs[i]?).map fun n => n.doc.documentID).getD 0

/-- Dynamic dispatch of `Object.Name()` (the root returns ""). -/
def Heap.nameOf (h : Heap) : ObjRef → String
  | .root => ""
  | .lib i => ((h.libs[i]?).map fun n => n.lib.libraryName).getD ""
  | .fld i => ((h.flds[i]?).map fun n => n.fld.folderName).getD ""
  | .doc i => ((h.docs[i]?).map fun n => n.doc.documentName).getD ""

/-- `sb.libFldDoc`: one optional pointer per kind for a raw integer id. -/
structure LibFldDoc where
  library : Option Nat
  folder : Option Nat
  document : Option Nat

/-- The zero value of `libFldDoc` (what a Go map read returns on a miss). -/
def LibFldDoc.emptyLfd : LibFldDoc := ⟨none, none, none⟩

/-- `libFldDoc.empty()`. -/
def LibFldDoc.isEmptyLfd (l : LibFldDoc) : Bool :=
  l.library.isNone && l.folder.isNone && l.document.isNone

/-- `libFldDoc.updateMap`: delete the binding when the bundle is empty,
else store it. -/
def LibFldDoc.updateMapGo (lfd : LibFldDoc) (m : GoMap Int LibFldDoc) (id : Int) :
    GoMap Int LibFldDoc :=
  if lfd.isEmptyLfd then mapErase m id else mapInsert m id lfd

/-- Go map read returning the zero-value bundle on a miss. -/
def lfdGet (m : GoMap Int LibFldDoc) (id : Int) : LibFldDoc :=
  (mapLookup m id).getD LibFldDoc.emptyLfd

/-- `sb.Root`: arenas, the root's own library index, `idCache`, `missing`. -/
structure RootState where
  heap : Heap
  objects : Objects ObjRef
  idCache : GoMap Int LibFldDoc
  missing : GoMap Int LibFldDoc

/-- `sb.NewRoot`. -/
def NewRoot : RootState := ⟨⟨[], [], []⟩, Objects.empty, [], []⟩

/-- One iteration of the folder loop of `(*Root).updateObjects`: resolve
the node for `wf.FolderID` through `idCache` (then — dead in practice —
the `missing` reclaim, whose pointer is at once overwritten by the
unconditional `newFolder` call, its only lasting effect being the cleared
registry slot), overwrite the node's web state while preserving its old
`Embedded`, add it to the fresh index and publish the bundle in `idCache`. -/
def folderStep (p : ObjRef) (st : RootState × Objects ObjRef) (wf : WebFolder) :
    RootState × Objects ObjRef :=
  let s := st.1
  let objs := st.2
  let lfd0 := lfdGet s.idCache wf.folderID
  let sr : RootState × Nat :=
    match lfd0.folder with
    | some r => (s, r)
    | none =>
      let s' :=
        match mapLookup s.missing wf.folderID with
        | some lfd2 =>
          if lfd2.folder ≠ none then
            { s with missing :=
                LibFldDoc.updateMapGo { lfd2 with folder := none } s.missing wf.folderID }
          else s
        | none => s
      ({ s' with heap := { s'.heap with flds := s'.heap.flds ++ [⟨p, wf, Objects.empty⟩] } },
        s'.heap.flds.length)
  let s1 := sr.1
  let fref := sr.2
  let oldNode := (s1.heap.flds[fref]?).getD ⟨p, wf, Objects.empty⟩
  let newNode : FolderNode :=
    ⟨oldNode.dotDot,
      ⟨wf.folderID, wf.folderName, oldNode.fld.embFolders, oldNode.fld.embDocuments⟩,
      oldNode.objs⟩
  let s2 := { s1 with heap := { s1.heap with flds := s1.heap.flds.set fref newNode } }
  let objs' := (objs.add s2.heap.idOf s2.heap.nameOf (.fld fref)).1
  ({ s2 with idCache := mapInsert s2.idCache wf.folderID { lfd0 with folder := some fref } },
    objs')

/-- One iteration of the document loop of `(*Root).updateObjects`.  The
reclaim branch here has a proper `else`, but a `missing` bundle with a nil
`Document` slot leaves `lfd.Document` nil and the following field write
panics (`none`); so does `p.(*Folder)` when `p` is not a folder. -/
def docStep (p : ObjRef) (st : RootState × Objects ObjRef) (wd : WebDocument) :
    Option (RootState × Objects ObjRef) :=
  let s := st.1
  let objs := st.2
  let lfd0 := lfdGet s.idCache wd.documentID
  let sr : Option (RootState × Option Nat) :=
    match lfd0.document with
    | some r => some (s, some r)
    | none =>
      match mapLookup s.missing wd.documentID with
      | some lfd2 =>
        if lfd2.document ≠ none then
          let lfd2' := { lfd2 with document := none }
          let miss' :=
            if lfd2'.isEmptyLfd then mapErase s.missing wd.documentID
            else mapInsert s.missing wd.documentID lfd2'
          some ({ s with missing := miss' }, lfd2.document)
        else some (s, none)
      | none =>
        match p with
        | .fld pf =>
          some ({ s with heap := { s.heap with docs := s.heap.docs ++ [⟨pf, ⟨0, ""⟩⟩] } },
            some s.heap.docs.length)
        | _ => none
  match sr with
  | none => none
  | some (_, none) => none
  | some (s1, some dref) =>
    let oldNode := (s1.heap.docs[dref]?).getD ⟨0, ⟨0, ""⟩⟩
    let newNode : DocumentNode := ⟨oldNode.folderRef, wd⟩
    let s2 := { s1 with heap := { s1.heap with docs := s1.heap.docs.set dref newNode } }
    let objs' := (objs.add s2.heap.idOf s2.heap.nameOf (.doc dref)).1
    let lfd1 : LibFldDoc := ⟨lfd0.library, lfd0.folder, some dref⟩
    some ({ s2 with idCache := mapInsert s2.idCache wd.documentID lfd1 }, objs')

/-- One iteration of the closing loop of `(*Root).updateObjects`: an old
child absent from the fresh index is filed in `missing` under its raw id;
a child that is neither a `*Document` nor a `*Folder` panics. -/
def missingStep (newObjs : Objects ObjRef) (s : RootState) (c : ObjRef) : Option RootState :=
  match mapLookup newObjs.ids (s.heap.idOf c) with
  | some _ => some s
  | none =>
    let lfd := lfdGet s.missing (s.heap.idOf c)
    match c with
    | .doc d =>
      let lfd1 : LibFldDoc := ⟨lfd.library, lfd.folder, some d⟩
      some { s with missing := mapInsert s.missing (s.heap.idOf c) lfd1 }
    | .fld f =>
      let lfd1 : LibFldDoc := ⟨lfd.library, some f, lfd.document⟩
      some { s with missing := mapInsert s.missing (s.heap.idOf c) lfd1 }
    | _ => none

/-- `(*Root).updateObjects`: folder loop, document loop, missing loop;
the caller then publishes the returned fresh index into the parent. -/
def updateObjects (s : RootState) (p : ObjRef) (obs : Objects ObjRef)
    (wfs : List WebFolder) (wds : List WebDocument) :
    Option (RootState × Objects ObjRef) := do
  let st1 := wfs.foldl (folderStep p) (s, Objects.empty)
  let st2 ← wds.foldlM (docStep p) st1
  let s3 ← obs.children.foldlM (missingStep st2.2) st2.1
  pure (s3, st2.2)

/-- One iteration of the library loop of `(*Root).update`: like the
document loop, but a new library is only constructed when the id has no
`missing` entry at all; a `missing` bundle with nil `Library` slot leaves
`lfd.Library` nil and the field write panics. -/
def libStep (st : RootState × Objects ObjRef) (wl : WebLibrary) :
    Option (RootState × Objects ObjRef) :=
  let s := st.1
  let objs := st.2
  let lfd0 := lfdGet s.idCache wl.libraryID
  let sr : Option (RootState × Option Nat) :=
    match lfd0.library with
    | some r => some (s, some r)
    | none =>
      match mapLookup s.missing wl.libraryID with
      | some lfd2 =>
        if lfd2.library ≠ none then
          some ({ s with missing :=
              LibFldDoc.updateMapGo { lfd2 with library := none } s.missing wl.libraryID },
            lfd2.library)
        else some (s, none)
      | none =>
        some ({ s with heap := { s.heap with libs := s.heap.libs ++ [⟨wl, Objects.empty⟩] } },
          some s.heap.libs.length)
  match sr with
  | none => none
  | some (_, none) => none
  | some (s1, some lref) =>
    let oldNode := (s1.heap.libs[lref]?).getD ⟨wl, Objects.empty⟩
    let newNode : LibraryNode := ⟨wl, oldNode.objs⟩
    let s2 := { s1 with heap := { s1.heap with libs := s1.heap.libs.set lref newNode } }
    let objs' := (objs.add s2.heap.idOf s2.heap.nameOf (.lib lref)).1
    let lfd1 : LibFldDoc := ⟨some lref, lfd0.folder, lfd0.document⟩
    some ({ s2 with idCache := mapInsert s2.idCache wl.libraryID lfd1 }, objs')

/-- One iteration of the missing loop of `(*Root).update`; old root
children are asserted to `*Library`. -/
def rootMissingStep (newObjs : Objects ObjRef) (s : RootState) (c : ObjRef) :
    Option RootState :=
  match mapLookup newObjs.ids (s.heap.idOf c) with
  | some _ => some s
  | none =>
    let lfd := lfdGet s.missing (s.heap.idOf c)
    match c with
    | .lib l =>
      let lfd1 : LibFldDoc := ⟨some l, lfd.folder, lfd.document⟩
      some { s with missing := mapInsert s.missing (s.heap.idOf c) lfd1 }
    | _ => none

/-- Transport-level failure of a remote fetch (opaque to the core). -/
abbrev FetchErr : Type := Nat

/-- `(*Root).update` with the outcome of `c.Libraries()` supplied as an
argument: a fetch error returns at once, leaving the state untouched. -/
def rootUpdate (s : RootState) (fetch : Except FetchErr (List WebLibrary)) :
    Option (RootState × Option FetchErr) :=
  match fetch with
  | .error e => some (s, some e)
  | .ok wls => do
    let st ← wls.foldlM libStep (s, Objects.empty)
    let s3 ← st.1.objects.children.foldlM (rootMissingStep st.2) st.1
    pure ({ s3 with objects := st.2 }, none)

/-- Write a library node's child index (`*obs = *objects` through the
`&l.folders.objects` pointer). -/
def Heap.setLibObjs (h : Heap) (i : Nat) (o : Objects ObjRef) : Heap :=
  match h.libs[i]? with
  | some n =>
    let newNode : LibraryNode := ⟨n.lib, o⟩
    { h with libs := h.libs.set i newNode }
  | none => h

/-- Write a folder node's child index. -/
def Heap.setFldObjs (h : Heap) (i : Nat) (o : Objects ObjRef) : Heap :=
  match h.flds[i]? with
  | some n =>
    let newNode : FolderNode := ⟨n.dotDot, n.fld, o⟩
    { h with flds := h.flds.set i newNode }
  | none => h

/-- `(*Library).update` with the outcome of `l.Library.Folders(c)`
supplied: on fetch error the state is untouched; on success the merged
index is published into the library node. -/
def libraryUpdate (s : RootState) (lref : Nat) (fetch : Except FetchErr (List WebFolder)) :
    Option (RootState × Option FetchErr) :=
  match s.heap.libs[lref]? with
  | none => none
  | some node =>
    match fetch with
    | .error e => some (s, some e)
    | .ok wfs => do
      let r ← updateObjects s (.lib lref) node.objs wfs []
      pure ({ r.1 with heap := r.1.heap.setLibObjs lref r.2 }, none)

/-- `getWebUpdaterFunc` panics unless the folder's parent is a `*Library`
or a `*Folder`. -/
def validUpdParent : ObjRef → Bool
  | .lib _ => true
  | .fld _ => true
  | _ => false

/-- `(*Folder).update` with the fetched folder (embed=d,f) supplied:
`getWebUpdaterFunc` dispatches on the parent first (panic on an invalid
parent kind); a fetch error leaves the state untouched; on success the
merged index is published into the folder node. -/
def folderUpdate (s : RootState) (fref : Nat) (fetch : Except FetchErr WebFolder) :
    Option (RootState × Option FetchErr) :=
  match s.heap.flds[fref]? with
  | none => none
  | some node =>
    if validUpdParent node.dotDot then
      match fetch with
      | .error e => some (s, some e)
      | .ok wf => do
        let r ← updateObjects s (.fld fref) node.objs wf.embFolders wf.embDocuments
        pure ({ r.1 with heap := r.1.heap.setFldObjs fref r.2 }, none)
    else none

/-- `(*Document).update` is a no-op. -/
def documentUpdate (s : RootState) : Option (RootState × Option FetchErr) :=
  some (s, none)

/-- Dynamic dispatch of `Parent.ChildByName`.  `Document` embeds its
containing `*Folder`, so `*Document`'s promoted `ChildByName` consults
the containing folder's index.  (A dangling ref — impossible in states
built by the model's own operations, and a nil-pointer panic in Go — is
modelled as a miss, following the file's convention for unreachable
states.) -/
def childByNameOf (s : RootState) (o : ObjRef) (name : String) : Option ObjRef :=
  match o with
  | .root => s.objects.childByName name
  | .lib i =>
    match s.heap.libs[i]? with
    | some n => n.objs.childByName name
    | none => none
  | .fld i =>
    match s.heap.flds[i]? with
    | some n => n.objs.childByName name
    | none => none
  | .doc i =>
    match s.heap.docs[i]? with
    | some n =>
      match s.heap.flds[n.folderRef]? with
      | some fn => fn.objs.childByName name
      | none => none
    | none => none

/-- The `o.(Parent)` type assertion of `ObjectByPath`: `Root`, `*Library`
and `*Folder` implement `Parent` directly, and `*Document` does too —
its method set contains `ChildByName`/`Children` promoted from the
embedded containing `*Folder` — so the assertion succeeds for every tree
node and the "expected folder or library" return is dead code. -/
def isParentRef : ObjRef → Bool
  | _ => true

/-- The remote gateway as seen by one resolution: the outcome of
`c.Libraries()`, of `l.Library.Folders(c)` per library node, and of the
parent-dispatched folder fetch (`embed=d,f`) per folder node. -/
structure Gateway where
  libraries : Except FetchErr (List WebLibrary)
  libFolders : Nat → Except FetchErr (List WebFolder)
  folderFetch : Nat → Except FetchErr WebFolder

/-- Dynamic dispatch of `Object.update` inside `ObjectByPath`. -/
def updateNode (g : Gateway) (s : RootState) : ObjRef → Option (RootState × Option FetchErr)
  | .root => rootUpdate s g.libraries
  | .lib i => libraryUpdate s i (g.libFolders i)
  | .fld i => folderUpdate s i (g.folderFetch i)
  | .doc _ => documentUpdate s

/-- Failure conditions of `(*Root).ObjectByPath`: the "expected folder or
library" type mismatch, a propagated fetch error, and `ChildNotFound`
carrying the unresolved component name. -/
inductive ResolveErr where
  | notParent
  | fetch (e : FetchErr)
  | childNotFound (name : String)
deriving DecidableEq

/-- The loop of `(*Root).ObjectByPath`: per component, require a parent,
probe the index, on a miss refresh once and retry once, and give up with
`ChildNotFound` on the second miss.  The third result component is the
trace of nodes refreshed, in order; `none` is a panic inside an update. -/
def resolveLoop (g : Gateway) :
    RootState → ObjRef → List String →
      Option (Except ResolveErr ObjRef × RootState × List ObjRef)
  | s, o, [] => some (.ok o, s, [])
  | s, o, part :: rest =>
    if isParentRef o then
      match childByNameOf s o part with
      | some c => resolveLoop g s c rest
      | none =>
        match updateNode g s o with
        | none => none
        | some (s', some e) => some (.error (.fetch e), s', [o])
        | some (s', none) =>
          match childByNameOf s' o part with
          | some c =>
            match resolveLoop g s' c rest with
            | none => none
            | some (res, s'', trace) => some (res, s'', o :: trace)
          | none => some (.error (.childNotFound part), s', [o])
    else some (.error .notParent, s, [])

/-- `(*Root).ObjectByPath`: a `none` origin resolves from the root. -/
def objectByPath (g : Gateway) (s : RootState) (origin : Option ObjRef)
    (path : List String) :
    Option (Except ResolveErr ObjRef × RootState × List ObjRef) :=
  resolveLoop g s (origin.getD .root) path

/-- One refresh operation with its fetched outcome. -/
inductive RefreshOp where
  | rootOp (fetch : Except FetchErr (List WebLibrary))
  | libOp (i : Nat) (fetch : Except FetchErr (List WebFolder))
  | fldOp (i : Nat) (fetch : Except FetchErr WebFolder)

/-- Apply one refresh operation. -/
def applyRefresh (s : RootState) : RefreshOp → Option (RootState × Option FetchErr)
  | .rootOp f => rootUpdate s f
  | .libOp i f => libraryUpdate s i f
  | .fldOp i f => folderUpdate s i f

/-- Apply a sequence of refresh operations (fetch errors leave the state
unchanged and the sequence continues; a panic aborts). -/
def applyRefreshes : RootState → List RefreshOp → Option RootState
  | s, [] => some s
  | s, op :: rest =>
    match applyRefresh s op with
    | none => none
    | some (s', _) => applyRefreshes s' rest

/-! ### Child-index lemmas -/

theorem Objects.add_dup {α : Type} (idf : α → Int) (namef : α → String)
    (o : Objects α) (c : α)
    (h : (mapLookup o.ids (idf c)).isSome ∨ (mapLookup o.names (namef c)).isSome) :
    Objects.add idf namef o c = (o, 0, false) := by
  rcases h with h | h
  · rcases Option.isSome_iff_exists.mp h with ⟨j, hj⟩
    simp only [Objects.add, hj]
  · rcases Option.isSome_iff_exists.mp h with ⟨j, hj⟩
    cases hi : mapLookup o.ids (idf c) with
    | some _ => simp only [Objects.add, hi]
    | none => simp only [Objects.add, hi, hj]

theorem Objects.add_success {α : Type} (idf : α → Int) (namef : α → String)
    (o : Objects α) (c : α)
    (h1 : mapLookup o.ids (idf c) = none) (h2 : mapLookup o.names (namef c) = none) :
    Objects.add idf namef o c =
      (⟨o.children ++ [c], mapInsert o.ids (idf c) o.children.length,
        mapInsert o.names (namef c) o.children.length⟩, o.children.length, true) := by
  simp only [Objects.add, h1, h2]

/-- Child `x` is published in the index under id `id` and name `nm` at a
common position. -/
def pubAt {α : Type} (o : Objects α) (id : Int) (nm : String) (x : α) : Prop :=
  ∃ j, mapLookup o.ids id = some j ∧ mapLookup o.names nm = some j ∧
    o.children[j]? = some x

theorem pubAt_childByName {α : Type} (o : Objects α) (id : Int) (nm : String) (x : α)
    (h : pubAt o id nm x) : o.childByName nm = some x := by
  obtain ⟨j, _, hn, hc⟩ := h
  simp only [Objects.childByName, hn]
  exact hc

theorem Objects.add_preserves_pubAt {α : Type} (idf : α → Int) (namef : α → String)
    (o : Objects α) (c : α) (id : Int) (nm : String) (x : α)
    (h : pubAt o id nm x) : pubAt (Objects.add idf namef o c).1 id nm x := by
  obtain ⟨j, hi, hn, hc⟩ := h
  rcases h1 : mapLookup o.ids (idf c) with _ | j1
  · rcases h2 : mapLookup o.names (namef c) with _ | j2
    · simp only [Objects.add, h1, h2]
      refine ⟨j, ?_, ?_, ?_⟩
      · rw [mapLookup_insert_ne]
        · exact hi
        · intro he
          rw [he, hi] at h1
          cases h1
      · rw [mapLookup_insert_ne]
        · exact hn
        · intro he
          rw [he, hn] at h2
          cases h2
      · have hj : j < o.children.length := (List.getElem?_eq_some.mp hc).1
        rw [List.getElem?_append_left hj]
        exact hc
    · simp only [Objects.add, h1, h2]
      exact ⟨j, hi, hn, hc⟩
  · simp only [Objects.add, h1]
    exact ⟨j, hi, hn, hc⟩

/-! ### `idCache` slot persistence -/

theorem lfdGet_insert_self (m : GoMap Int LibFldDoc) (k : Int) (v : LibFldDoc) :
    lfdGet (mapInsert m k v) k = v := by
  rw [lfdGet, mapLookup_insert_self]
  rfl

theorem lfdGet_insert_ne (m : GoMap Int LibFldDoc) (k k' : Int) (v : LibFldDoc)
    (h : k ≠ k') : lfdGet (mapInsert m k v) k' = lfdGet m k' := by
  rw [lfdGet, mapLookup_insert_ne m k k' v h]
  rfl

/-- Once an `idCache` bundle slot points at a node, it keeps pointing at
that node. -/
def idCachePreserved (s s' : RootState) : Prop :=
  ∀ id : Int,
    (∀ r, (lfdGet s.idCache id).library = some r → (lfdGet s'.idCache id).library = some r) ∧
    (∀ r, (lfdGet s.idCache id).folder = some r → (lfdGet s'.idCache id).folder = some r) ∧
    (∀ r, (lfdGet s.idCache id).document = some r → (lfdGet s'.idCache id).document = some r)

theorem idCachePreserved_refl (s : RootState) : idCachePreserved s s := by
  intro id
  exact ⟨fun _ h => h, fun _ h => h, fun _ h => h⟩

theorem idCachePreserved_trans {s s' s'' : RootState}
    (h1 : idCachePreserved s s') (h2 : idCachePreserved s' s'') : idCachePreserved s s'' := by
  intro id
  obtain ⟨l1, f1, d1⟩ := h1 id
  obtain ⟨l2, f2, d2⟩ := h2 id
  exact ⟨fun r h => l2 r (l1 r h), fun r h => f2 r (f1 r h), fun r h => d2 r (d1 r h)⟩

theorem idCachePreserved_of_eq {s s' : RootState} (h : s'.idCache = s.idCache) :
    idCachePreserved s s' := by
  intro id
  rw [h]
  exact ⟨fun _ h => h, fun _ h => h, fun _ h => h⟩

theorem idCachePreserved_insert {s s' : RootState} (k : Int) (v : LibFldDoc)
    (hc : s'.idCache = mapInsert s.idCache k v)
    (hl : ∀ r, (lfdGet s.idCache k).library = some r → v.library = some r)
    (hf : ∀ r, (lfdGet s.idCache k).folder = some r → v.folder = some r)
    (hd : ∀ r, (lfdGet s.idCache k).document = some r → v.document = some r) :
    idCachePreserved s s' := by
  intro id
  by_cases hk : k = id
  · subst hk
    rw [hc, lfdGet_insert_self]
    exact ⟨hl, hf, hd⟩
  · rw [hc, lfdGet_insert_ne s.idCache k id v hk]
    exact ⟨fun _ h => h, fun _ h => h, fun _ h => h⟩

theorem folderStep_idCache_cases (p : ObjRef) (st : RootState × Objects ObjRef)
    (wf : WebFolder) :
    ∃ fref : Nat,
      (folderStep p st wf).1.idCache =
        mapInsert st.1.idCache wf.folderID
          ⟨(lfdGet st.1.idCache wf.folderID).library, some fref,
            (lfdGet st.1.idCache wf.folderID).document⟩ ∧
      (∀ r, (lfdGet st.1.idCache wf.folderID).folder = some r → fref = r) := by
  rcases h0 : (lfdGet st.1.idCache wf.folderID).folder with _ | r
  · rcases hm : mapLookup st.1.missing wf.folderID with _ | lfd2
    · refine ⟨st.1.heap.flds.length, ?_, ?_⟩
      · simp only [folderStep, h0, hm]
      · intro r hr
        cases hr
    · by_cases hf2 : lfd2.folder ≠ none
      · refine ⟨st.1.heap.flds.length, ?_, ?_⟩
        · simp only [folderStep, h0, hm, if_pos hf2]
        · intro r hr
          cases hr
      · refine ⟨st.1.heap.flds.length, ?_, ?_⟩
        · simp only [folderStep, h0, hm, if_neg hf2]
        · intro r hr
          cases hr
  · refine ⟨r, ?_, ?_⟩
    · simp only [folderStep, h0]
    · intro r' hr'
      exact Option.some_inj.mp hr'

theorem docStep_idCache_cases (p : ObjRef) (st : RootState × Objects ObjRef)
    (wd : WebDocument) (st' : RootState × Objects ObjRef)
    (h : docStep p st wd = some st') :
    ∃ dref : Nat,
      st'.1.idCache =
        mapInsert st.1.idCache wd.documentID
          ⟨(lfdGet st.1.idCache wd.documentID).library,
            (lfdGet st.1.idCache wd.documentID).folder, some dref⟩ ∧
      (∀ r, (lfdGet st.1.idCache wd.documentID).document = some r → dref = r) := by
  rcases h0 : (lfdGet st.1.idCache wd.documentID).document with _ | r
  · rcases hm : mapLookup st.1.missing wd.documentID with _ | lfd2
    · rcases hp : p with _ | li | pf | di
      · simp only [docStep, h0, hm, hp] at h
        cases h
      · simp only [docStep, h0, hm, hp] at h
        cases h
      · simp only [docStep, h0, hm, hp] at h
        cases h
        refine ⟨st.1.heap.docs.length, rfl, ?_⟩
        intro r hr
        cases hr
      · simp only [docStep, h0, hm, hp] at h
        cases h
    · by_cases hd2 : lfd2.document ≠ none
      · rcases hd2' : lfd2.document with _ | d2
        · rw [hd2'] at hd2
          exact absurd rfl hd2
        · simp only [docStep, h0, hm, if_pos hd2, hd2'] at h
          cases h
          refine ⟨d2, rfl, ?_⟩
          intro r hr
          cases hr
      · simp only [docStep, h0, hm, if_neg hd2] at h
        cases h
  · simp only [docStep, h0] at h
    cases h
    refine ⟨r, rfl, ?_⟩
    intro r' hr'
    exact Option.some_inj.mp hr'

theorem libStep_idCache_cases (st : RootState × Objects ObjRef) (wl : WebLibrary)
    (st' : RootState × Objects ObjRef) (h : libStep st wl = some st') :
    ∃ lref : Nat,
      st'.1.idCache =
        mapInsert st.1.idCache wl.libraryID
          ⟨some lref, (lfdGet st.1.idCache wl.libraryID).folder,
            (lfdGet st.1.idCache wl.libraryID).document⟩ ∧
      (∀ r, (lfdGet st.1.idCache wl.libraryID).library = some r → lref = r) := by
  rcases h0 : (lfdGet st.1.idCache wl.libraryID).library with _ | r
  · rcases hm : mapLookup st.1.missing wl.libraryID with _ | lfd2
    · simp only [libStep, h0, hm] at h
      cases h
      refine ⟨st.1.heap.libs.length, rfl, ?_⟩
      intro r hr
      cases hr
    · by_cases hl2 : lfd2.library ≠ none
      · rcases hl2' : lfd2.library with _ | l2
        · rw [hl2'] at hl2
          exact absurd rfl hl2
        · simp only [libStep, h0, hm, if_pos hl2, hl2'] at h
          cases h
          refine ⟨l2, rfl, ?_⟩
          intro r hr
          cases hr
      · simp only [libStep, h0, hm, if_neg hl2] at h
        cases h
  · simp only [libStep, h0] at h
    cases h
    refine ⟨r, rfl, ?_⟩
    intro r' hr'
    exact Option.some_inj.mp hr'

theorem missingStep_idCache (no : Objects ObjRef) (s : RootState) (c : ObjRef)
    (s' : RootState) (h : missingStep no s c = some s') : s'.idCache = s.idCache := by
  cases c with
  | root =>
    rcases hl : mapLookup no.ids (s.heap.idOf .root) with _ | j
    · simp only [missingStep, hl] at h
      cases h
    · simp only [missingStep, hl] at h
      cases h
      rfl
  | lib li =>
    rcases hl : mapLookup no.ids (s.heap.idOf (.lib li)) with _ | j
    · simp only [missingStep, hl] at h
      cases h
    · simp only [missingStep, hl] at h
      cases h
      rfl
  | fld fi =>
    rcases hl : mapLookup no.ids (s.heap.idOf (.fld fi)) with _ | j
    · simp only [missingStep, hl] at h
      cases h
      rfl
    · simp only [missingStep, hl] at h
      cases h
      rfl
  | doc di =>
    rcases hl : mapLookup no.ids (s.heap.idOf (.doc di)) with _ | j
    · simp only [missingStep, hl] at h
      cases h
      rfl
    · simp only [missingStep, hl] at h
      cases h
      rfl

theorem rootMissingStep_idCache (no : Objects ObjRef) (s : RootState) (c : ObjRef)
    (s' : RootState) (h : rootMissingStep no s c = some s') : s'.idCache = s.idCache := by
  cases c with
  | root =>
    rcases hl : mapLookup no.ids (s.heap.idOf .root) with _ | j
    · simp only [rootMissingStep, hl] at h
      cases h
    · simp only [rootMissingStep, hl] at h
      cases h
      rfl
  | lib li =>
    rcases hl : mapLookup no.ids (s.heap.idOf (.lib li)) with _ | j
    · simp only [rootMissingStep, hl] at h
      cases h
      rfl
    · simp only [rootMissingStep, hl] at h
      cases h
      rfl
  | fld fi =>
    rcases hl : mapLookup no.ids (s.heap.idOf (.fld fi)) with _ | j
    · simp only [rootMissingStep, hl] at h
      cases h
    · simp only [rootMissingStep, hl] at h
      cases h
      rfl
  | doc di =>
    rcases hl : mapLookup no.ids (s.heap.idOf (.doc di)) with _ | j
    · simp only [rootMissingStep, hl] at h
      cases h
    · simp only [rootMissingStep, hl] at h
      cases h
      rfl

theorem folderStep_preserves (p : ObjRef) (st : RootState × Objects ObjRef)
    (wf : WebFolder) : idCachePreserved st.1 (folderStep p st wf).1 := by
  obtain ⟨fref, hc, hctl⟩ := folderStep_idCache_cases p st wf
  refine idCachePreserved_insert wf.folderID _ hc ?_ ?_ ?_
  · intro r h
    exact h
  · intro r h
    rw [hctl r h]
  · intro r h
    exact h

theorem docStep_preserves (p : ObjRef) (st st' : RootState × Objects ObjRef)
    (wd : WebDocument) (h : docStep p st wd = some st') : idCachePreserved st.1 st'.1 := by
  obtain ⟨dref, hc, hctl⟩ := docStep_idCache_cases p st wd st' h
  refine idCachePreserved_insert wd.documentID _ hc ?_ ?_ ?_
  · intro r h'
    exact h'
  · intro r h'
    exact h'
  · intro r h'
    rw [hctl r h']

theorem libStep_preserves (st st' : RootState × Objects ObjRef)
    (wl : WebLibrary) (h : libStep st wl = some st') : idCachePreserved st.1 st'.1 := by
  obtain ⟨lref, hc, hctl⟩ := libStep_idCache_cases st wl st' h
  refine idCachePreserved_insert wl.libraryID _ hc ?_ ?_ ?_
  · intro r h'
    rw [hctl r h']
  · intro r h'
    exact h'
  · intro r h'
    exact h'

theorem foldl_folderStep_preserves (p : ObjRef) :
    ∀ (wfs : List WebFolder) (st : RootState × Objects ObjRef),
      idCachePreserved st.1 (List.foldl (folderStep p) st wfs).1 := by
  intro wfs
  induction wfs with
  | nil =>
    intro st
    exact idCachePreserved_refl _
  | cons wf rest ih =>
    intro st
    rw [List.foldl_cons]
    exact idCachePreserved_trans (folderStep_preserves p st wf) (ih (folderStep p st wf))

theorem foldlM_docStep_preserves (p : ObjRef) :
    ∀ (wds : List WebDocument) (st st' : RootState × Objects ObjRef),
      List.foldlM (docStep p) st wds = some st' → idCachePreserved st.1 st'.1 := by
  intro wds
  induction wds with
  | nil =>
    intro st st' h
    simp only [List.foldlM, pure] at h
    cases h
    exact idCachePreserved_refl _
  | cons wd rest ih =>
    intro st st' h
    rcases hstep : docStep p st wd with _ | mid
    · simp only [List.foldlM, hstep] at h
      cases h
    · simp only [List.foldlM, hstep] at h
      exact idCachePreserved_trans (docStep_preserves p st mid wd hstep) (ih mid st' h)

theorem foldlM_libStep_preserves :
    ∀ (wls : List WebLibrary) (st st' : RootState × Objects ObjRef),
      List.foldlM libStep st wls = some st' → idCachePreserved st.1 st'.1 := by
  intro wls
  induction wls with
  | nil =>
    intro st st' h
    simp only [List.foldlM, pure] at h
    cases h
    exact idCachePreserved_refl _
  | cons wl rest ih =>
    intro st st' h
    rcases hstep : libStep st wl with _ | mid
    · simp only [List.foldlM, hstep] at h
      cases h
    · simp only [List.foldlM, hstep] at h
      exact idCachePreserved_trans (libStep_preserves st mid wl hstep) (ih mid st' h)

theorem foldlM_missingStep_idCache (no : Objects ObjRef) :
    ∀ (cs : List ObjRef) (s s' : RootState),
      List.foldlM (missingStep no) s cs = some s' → s'.idCache = s.idCache := by
  intro cs
  induction cs with
  | nil =>
    intro s s' h
    simp only [List.foldlM, pure] at h
    cases h
    rfl
  | cons c rest ih =>
    intro s s' h
    rcases hstep : missingStep no s c with _ | mid
    · simp only [List.foldlM, hstep] at h
      cases h
    · simp only [List.foldlM, hstep] at h
      rw [ih mid s' h, missingStep_idCache no s c mid hstep]

theorem foldlM_rootMissingStep_idCache (no : Objects ObjRef) :
    ∀ (cs : List ObjRef) (s s' : RootState),
      List.foldlM (rootMissingStep no) s cs = some s' → s'.idCache = s.idCache := by
  intro cs
  induction cs with
  | nil =>
    intro s s' h
    simp only [List.foldlM, pure] at h
    cases h
    rfl
  | cons c rest ih =>
    intro s s' h
    rcases hstep : rootMissingStep no s c with _ | mid
    · simp only [List.foldlM, hstep] at h
      cases h
    · simp only [List.foldlM, hstep] at h
      rw [ih mid s' h, rootMissingStep_idCache no s c mid hstep]

theorem updateObjects_preserves (s : RootState) (p : ObjRef) (obs : Objects ObjRef)
    (wfs : List WebFolder) (wds : List WebDocument) (s' : RootState)
    (objs' : Objects ObjRef) (h : updateObjects s p obs wfs wds = some (s', objs')) :
    idCachePreserved s s' := by
  rcases h2 : List.foldlM (docStep p) (List.foldl (folderStep p) (s, Objects.empty) wfs) wds
    with _ | st2
  · simp only [updateObjects, bind, Option.bind, h2] at h
    cases h
  · rcases h4 : List.foldlM (missingStep st2.2) st2.1 obs.children with _ | s3
    · simp only [updateObjects, bind, Option.bind, h2, h4] at h
      cases h
    · simp only [updateObjects, bind, Option.bind, h2, h4, pure] at h
      cases h
      refine idCachePreserved_trans (foldl_folderStep_preserves p wfs (s, Objects.empty)) ?_
      refine idCachePreserved_trans
        (foldlM_docStep_preserves p wds (List.foldl (folderStep p) (s, Objects.empty) wfs)
          st2 h2) ?_
      exact idCachePreserved_of_eq (foldlM_missingStep_idCache st2.2 obs.children st2.1 _ h4)

theorem rootUpdate_preserves (s : RootState) (fetch : Except FetchErr (List WebLibrary))
    (s' : RootState) (e : Option FetchErr) (h : rootUpdate s fetch = some (s', e)) :
    idCachePreserved s s' := by
  cases fetch with
  | error e0 =>
    simp only [rootUpdate] at h
    cases h
    exact idCachePreserved_refl _
  | ok wls =>
    rcases h2 : List.foldlM libStep (s, Objects.empty) wls with _ | st2
    · simp only [rootUpdate, bind, Option.bind, h2] at h
      cases h
    · rcases h4 : List.foldlM (rootMissingStep st2.2) st2.1 st2.1.objects.children
        with _ | s3
      · simp only [rootUpdate, bind, Option.bind, h2, h4] at h
        cases h
      · simp only [rootUpdate, bind, Option.bind, h2, h4, pure] at h
        cases h
        refine idCachePreserved_trans (foldlM_libStep_preserves wls (s, Objects.empty) st2 h2) ?_
        exact idCachePreserved_of_eq
          (foldlM_rootMissingStep_idCache st2.2 st2.1.objects.children st2.1 s3 h4)

theorem libraryUpdate_preserves (s : RootState) (lref : Nat)
    (fetch : Except FetchErr (List WebFolder)) (s' : RootState) (e : Option FetchErr)
    (h : libraryUpdate s lref fetch = some (s', e)) : idCachePreserved s s' := by
  rcases hn : s.heap.libs[lref]? with _ | node
  · simp only [libraryUpdate, hn] at h
    cases h
  · cases fetch with
    | error e0 =>
      simp only [libraryUpdate, hn] at h
      cases h
      exact idCachePreserved_refl _
    | ok wfs =>
      rcases h2 : updateObjects s (.lib lref) node.objs wfs [] with _ | r
      · simp only [libraryUpdate, hn, bind, Option.bind, h2] at h
        cases h
      · simp only [libraryUpdate, hn, bind, Option.bind, h2, pure] at h
        cases h
        exact updateObjects_preserves s (.lib lref) node.objs wfs [] r.1 r.2
          (by rw [h2])

theorem folderUpdate_preserves (s : RootState) (fref : Nat)
    (fetch : Except FetchErr WebFolder) (s' : RootState) (e : Option FetchErr)
    (h : folderUpdate s fref fetch = some (s', e)) : idCachePreserved s s' := by
  rcases hn : s.heap.flds[fref]? with _ | node
  · simp only [folderUpdate, hn] at h
    cases h
  · by_cases hv : validUpdParent node.dotDot
    · cases fetch with
      | error e0 =>
        simp only [folderUpdate, hn, if_pos hv] at h
        cases h
        exact idCachePreserved_refl _
      | ok wf =>
        rcases h2 : updateObjects s (.fld fref) node.objs wf.embFolders wf.embDocuments
          with _ | r
        · simp only [folderUpdate, hn, if_pos hv, bind, Option.bind, h2] at h
          cases h
        · simp only [folderUpdate, hn, if_pos hv, bind, Option.bind, h2, pure] at h
          cases h
          exact updateObjects_preserves s (.fld fref) node.objs wf.embFolders
            wf.embDocuments r.1 r.2 (by rw [h2])
    · simp only [folderUpdate, hn, if_neg hv] at h
      cases h

theorem applyRefresh_preserves (s : RootState) (op : RefreshOp) (s' : RootState)
    (e : Option FetchErr) (h : applyRefresh s op = some (s', e)) : idCachePreserved s s' := by
  cases op with
  | rootOp f => exact rootUpdate_preserves s f s' e h
  | libOp i f => exact libraryUpdate_preserves s i f s' e h
  | fldOp i f => exact folderUpdate_preserves s i f s' e h

theorem applyRefreshes_preserves :
    ∀ (ops : List RefreshOp) (s s' : RootState),
      applyRefreshes s ops = some s' → idCachePreserved s s' := by
  intro ops
  induction ops with
  | nil =>
    intro s s' h
    simp only [applyRefreshes] at h
    cases h
    exact idCachePreserved_refl _
  | cons op rest ih =>
    intro s s' h
    rcases hstep : applyRefresh s op with _ | mid
    · simp only [applyRefreshes, hstep] at h
      cases h
    · simp only [applyRefreshes, hstep] at h
      exact idCachePreserved_trans (applyRefresh_preserves s op mid.1 mid.2
        (by rw [hstep])) (ih mid.1 s' h)

/-! ### Publication of listed children into the fresh index -/

theorem Objects.add_ids_sub {α : Type} (idf : α → Int) (namef : α → String)
    (o : Objects α) (c : α) (id : Int)
    (h : (mapLookup (Objects.add idf namef o c).1.ids id).isSome) :
    (mapLookup o.ids id).isSome ∨ id = idf c := by
  rcases h1 : mapLookup o.ids (idf c) with _ | j1
  · rcases h2 : mapLookup o.names (namef c) with _ | j2
    · simp only [Objects.add, h1, h2] at h
      by_cases hk : idf c = id
      · exact .inr hk.symm
      · rw [mapLookup_insert_ne _ _ _ _ hk] at h
        exact .inl h
    · simp only [Objects.add, h1, h2] at h
      exact .inl h
  · simp only [Objects.add, h1] at h
    exact .inl h

theorem Objects.add_names_sub {α : Type} (idf : α → Int) (namef : α → String)
    (o : Objects α) (c : α) (nm : String)
    (h : (mapLookup (Objects.add idf namef o c).1.names nm).isSome) :
    (mapLookup o.names nm).isSome ∨ nm = namef c := by
  rcases h1 : mapLookup o.ids (idf c) with _ | j1
  · rcases h2 : mapLookup o.names (namef c) with _ | j2
    · simp only [Objects.add, h1, h2] at h
      by_cases hk : namef c = nm
      · exact .inr hk.symm
      · rw [mapLookup_insert_ne _ _ _ _ hk] at h
        exact .inl h
    · simp only [Objects.add, h1, h2] at h
      exact .inl h
  · simp only [Objects.add, h1] at h
    exact .inl h

/-- Every `idCache` folder slot is a live `flds` arena index. -/
def validFolderSlots (s : RootState) : Prop :=
  ∀ id r, (lfdGet s.idCache id).folder = some r → r < s.heap.flds.length

/-- Every `idCache` document slot is a live `docs` arena index. -/
def validDocSlots (s : RootState) : Prop :=
  ∀ id r, (lfdGet s.idCache id).document = some r → r < s.heap.docs.length

theorem folderStep_preserves_pubAt (p : ObjRef) (st : RootState × Objects ObjRef)
    (wf : WebFolder) (id : Int) (nm : String) (x : ObjRef)
    (h : pubAt st.2 id nm x) : pubAt (folderStep p st wf).2 id nm x := by
  rcases h0 : (lfdGet st.1.idCache wf.folderID).folder with _ | r
  · rcases hm : mapLookup st.1.missing wf.folderID with _ | lfd2
    · simp only [folderStep, h0, hm]
      exact Objects.add_preserves_pubAt _ _ _ _ _ _ _ h
    · by_cases hf2 : lfd2.folder ≠ none
      · simp only [folderStep, h0, hm, if_pos hf2]
        exact Objects.add_preserves_pubAt _ _ _ _ _ _ _ h
      · simp only [folderStep, h0, hm, if_neg hf2]
        exact Objects.add_preserves_pubAt _ _ _ _ _ _ _ h
  · simp only [folderStep, h0]
    exact Objects.add_preserves_pubAt _ _ _ _ _ _ _ h

theorem docStep_preserves_pubAt (p : ObjRef) (st st' : RootState × Objects ObjRef)
    (wd : WebDocument) (h : docStep p st wd = some st') (id : Int) (nm : String)
    (x : ObjRef) (hp : pubAt st.2 id nm x) : pubAt st'.2 id nm x := by
  rcases h0 : (lfdGet st.1.idCache wd.documentID).document with _ | r
  · rcases hm : mapLookup st.1.missing wd.documentID with _ | lfd2
    · rcases hpp : p with _ | li | pf | di
      · simp only [docStep, h0, hm, hpp] at h
        cases h
      · simp only [docStep, h0, hm, hpp] at h
        cases h
      · simp only [docStep, h0, hm, hpp] at h
        cases h
        exact Objects.add_preserves_pubAt _ _ _ _ _ _ _ hp
      · simp only [docStep, h0, hm, hpp] at h
        cases h
    · by_cases hd2 : lfd2.document ≠ none
      · rcases hd2' : lfd2.document with _ | d2
        · rw [hd2'] at hd2
          exact absurd rfl hd2
        · simp only [docStep, h0, hm, if_pos hd2, hd2'] at h
          cases h
          exact Objects.add_preserves_pubAt _ _ _ _ _ _ _ hp
      · simp only [docStep, h0, hm, if_neg hd2] at h
        cases h
  · simp only [docStep, h0] at h
    cases h
    exact Objects.add_preserves_pubAt _ _ _ _ _ _ _ hp

theorem foldlM_docStep_preserves_pubAt (p : ObjRef) :
    ∀ (wds : List WebDocument) (st st' : RootState × Objects ObjRef),
      List.foldlM (docStep p) st wds = some st' →
      ∀ id nm x, pubAt st.2 id nm x → pubAt st'.2 id nm x := by
  intro wds
  induction wds with
  | nil =>
    intro st st' h id nm x hp
    simp only [List.foldlM, pure] at h
    cases h
    exact hp
  | cons wd rest ih =>
    intro st st' h id nm x hp
    rcases hstep : docStep p st wd with _ | mid
    · simp only [List.foldlM, hstep] at h
      cases h
    · simp only [List.foldlM, hstep] at h
      exact ih mid st' h id nm x (docStep_preserves_pubAt p st mid wd hstep id nm x hp)

theorem validFolderSlots_mk (H : Heap) (O : Objects ObjRef) (C M : GoMap Int LibFldDoc)
    (h : ∀ id r, (lfdGet C id).folder = some r → r < H.flds.length) :
    validFolderSlots ⟨H, O, C, M⟩ := h

theorem validDocSlots_mk (H : Heap) (O : Objects ObjRef) (C M : GoMap Int LibFldDoc)
    (h : ∀ id r, (lfdGet C id).document = some r → r < H.docs.length) :
    validDocSlots ⟨H, O, C, M⟩ := h

theorem folderStep_validF (p : ObjRef) (st : RootState × Objects ObjRef) (wf : WebFolder)
    (hv : validFolderSlots st.1) : validFolderSlots (folderStep p st wf).1 := by
  rcases h0 : (lfdGet st.1.idCache wf.folderID).folder with _ | r
  · rcases hm : mapLookup st.1.missing wf.folderID with _ | lfd2
    · simp only [folderStep, h0, hm]
      refine validFolderSlots_mk _ _ _ _ ?_
      intro id r' hr'
      simp only [List.length_set, List.length_append, List.length_cons, List.length_nil]
      by_cases hk : wf.folderID = id
      · subst hk
        rw [lfdGet_insert_self] at hr'
        cases hr'
        omega
      · rw [lfdGet_insert_ne _ _ _ _ hk] at hr'
        have := hv id r' hr'
        omega
    · by_cases hf2 : lfd2.folder ≠ none
      · simp only [folderStep, h0, hm, if_pos hf2]
        refine validFolderSlots_mk _ _ _ _ ?_
        intro id r' hr'
        simp only [List.length_set, List.length_append, List.length_cons, List.length_nil]
        by_cases hk : wf.folderID = id
        · subst hk
          rw [lfdGet_insert_self] at hr'
          cases hr'
          omega
        · rw [lfdGet_insert_ne _ _ _ _ hk] at hr'
          have := hv id r' hr'
          omega
      · simp only [folderStep, h0, hm, if_neg hf2]
        refine validFolderSlots_mk _ _ _ _ ?_
        intro id r' hr'
        simp only [List.length_set, List.length_append, List.length_cons, List.length_nil]
        by_cases hk : wf.folderID = id
        · subst hk
          rw [lfdGet_insert_self] at hr'
          cases hr'
          omega
        · rw [lfdGet_insert_ne _ _ _ _ hk] at hr'
          have := hv id r' hr'
          omega
  · simp only [folderStep, h0]
    refine validFolderSlots_mk _ _ _ _ ?_
    intro id r' hr'
    simp only [List.length_set]
    by_cases hk : wf.folderID = id
    · subst hk
      rw [lfdGet_insert_self] at hr'
      cases hr'
      exact hv _ r h0
    · rw [lfdGet_insert_ne _ _ _ _ hk] at hr'
      exact hv id r' hr'

theorem mapLookup_erase_self {α β : Type} [DecidableEq α] (m : GoMap α β) (k : α) :
    mapLookup (mapErase m k) k = none := by
  induction m with
  | nil => rfl
  | cons hd t ih =>
    obtain ⟨k₀, v₀⟩ := hd
    by_cases hk : k₀ = k
    · simp only [mapErase, if_pos hk]
      exact ih
    · simp only [mapErase, if_neg hk, mapLookup, if_neg hk]
      exact ih

theorem mapLookup_erase_ne {α β : Type} [DecidableEq α] (m : GoMap α β) (k k' : α)
    (h : k ≠ k') : mapLookup (mapErase m k) k' = mapLookup m k' := by
  induction m with
  | nil => rfl
  | cons hd t ih =>
    obtain ⟨k₀, v₀⟩ := hd
    by_cases hk : k₀ = k
    · subst hk
      have : ¬ (k₀ = k') := h
      simp only [mapErase, if_pos rfl, mapLookup, if_neg this]
      exact ih
    · simp only [mapErase, if_neg hk, mapLookup]
      by_cases hk' : k₀ = k'
      · simp [hk']
      · simp only [if_neg hk']
        exact ih

/-- Every `missing` registry document slot is a live `docs` arena index. -/
def validMissingDoc (s : RootState) : Prop :=
  ∀ id r, (lfdGet s.missing id).document = some r → r < s.heap.docs.length

theorem validMissingDoc_mk (H : Heap) (O : Objects ObjRef) (C M : GoMap Int LibFldDoc)
    (h : ∀ id r, (lfdGet M id).document = some r → r < H.docs.length) :
    validMissingDoc ⟨H, O, C, M⟩ := h

theorem lfdGet_erase_self (m : GoMap Int LibFldDoc) (k : Int) :
    lfdGet (mapErase m k) k = LibFldDoc.emptyLfd := by
  rw [lfdGet, mapLookup_erase_self]
  rfl

theorem lfdGet_erase_ne (m : GoMap Int LibFldDoc) (k k' : Int) (h : k ≠ k') :
    lfdGet (mapErase m k) k' = lfdGet m k' := by
  rw [lfdGet, mapLookup_erase_ne m k k' h]
  rfl

theorem folderStep_docValid (p : ObjRef) (st : RootState × Objects ObjRef) (wf : WebFolder)
    (hv : validDocSlots st.1) (hm0 : validMissingDoc st.1) :
    validDocSlots (folderStep p st wf).1 ∧ validMissingDoc (folderStep p st wf).1 := by
  have hcache : ∀ (H : Heap) (O : Objects ObjRef) (M : GoMap Int LibFldDoc) (fref : Nat),
      H.docs = st.1.heap.docs →
      (∀ id r, (lfdGet M id).document = some r → r < st.1.heap.docs.length) →
      validDocSlots ⟨H, O, mapInsert st.1.idCache wf.folderID
        ⟨(lfdGet st.1.idCache wf.folderID).library, some fref,
          (lfdGet st.1.idCache wf.folderID).document⟩, M⟩ ∧
      validMissingDoc ⟨H, O, mapInsert st.1.idCache wf.folderID
        ⟨(lfdGet st.1.idCache wf.folderID).library, some fref,
          (lfdGet st.1.idCache wf.folderID).document⟩, M⟩ := by
    intro H O M fref hH hM
    constructor
    · refine validDocSlots_mk _ _ _ _ ?_
      intro id r' hr'
      rw [hH]
      by_cases hk : wf.folderID = id
      · subst hk
        rw [lfdGet_insert_self] at hr'
        exact hv _ r' hr'
      · rw [lfdGet_insert_ne _ _ _ _ hk] at hr'
        exact hv id r' hr'
    · refine validMissingDoc_mk _ _ _ _ ?_
      intro id r' hr'
      rw [hH]
      exact hM id r' hr'
  rcases h0 : (lfdGet st.1.idCache wf.folderID).folder with _ | r
  · rcases hm : mapLookup st.1.missing wf.folderID with _ | lfd2
    · simp only [folderStep, h0, hm]
      exact hcache _ _ _ _ rfl (fun id r' hr' => hm0 id r' hr')
    · have hlfd2 : lfdGet st.1.missing wf.folderID = lfd2 := by
        rw [lfdGet, hm]
        rfl
      by_cases hf2 : lfd2.folder ≠ none
      · by_cases hemp : (⟨lfd2.library, none, lfd2.document⟩ : LibFldDoc).isEmptyLfd = true
        · simp only [folderStep, h0, hm, if_pos hf2, LibFldDoc.updateMapGo, if_pos hemp]
          refine hcache _ _ _ _ rfl ?_
          intro id r' hr'
          by_cases hk : wf.folderID = id
          · subst hk
            rw [lfdGet_erase_self] at hr'
            cases hr'
          · rw [lfdGet_erase_ne _ _ _ hk] at hr'
            exact hm0 id r' hr'
        · simp only [folderStep, h0, hm, if_pos hf2, LibFldDoc.updateMapGo, if_neg hemp]
          refine hcache _ _ _ _ rfl ?_
          intro id r' hr'
          by_cases hk : wf.folderID = id
          · subst hk
            rw [lfdGet_insert_self] at hr'
            exact hm0 _ r' (by rw [hlfd2]; exact hr')
          · rw [lfdGet_insert_ne _ _ _ _ hk] at hr'
            exact hm0 id r' hr'
      · simp only [folderStep, h0, hm, if_neg hf2]
        exact hcache _ _ _ _ rfl (fun id r' hr' => hm0 id r' hr')
  · simp only [folderStep, h0]
    exact hcache _ _ _ _ rfl (fun id r' hr' => hm0 id r' hr')

theorem docStep_docValid (p : ObjRef) (st st' : RootState × Objects ObjRef)
    (wd : WebDocument) (h : docStep p st wd = some st')
    (hv : validDocSlots st.1) (hm0 : validMissingDoc st.1) :
    validDocSlots st'.1 ∧ validMissingDoc st'.1 := by
  rcases h0 : (lfdGet st.1.idCache wd.documentID).document with _ | r
  · rcases hm : mapLookup st.1.missing wd.documentID with _ | lfd2
    · rcases hpp : p with _ | li | pf | di
      · simp only [docStep, h0, hm, hpp] at h
        cases h
      · simp only [docStep, h0, hm, hpp] at h
        cases h
      · simp only [docStep, h0, hm, hpp] at h
        cases h
        constructor
        · refine validDocSlots_mk _ _ _ _ ?_
          intro id r' hr'
          simp only [List.length_set, List.length_append, List.length_cons, List.length_nil]
          by_cases hk : wd.documentID = id
          · subst hk
            rw [lfdGet_insert_self] at hr'
            cases hr'
            omega
          · rw [lfdGet_insert_ne _ _ _ _ hk] at hr'
            have := hv id r' hr'
            omega
        · refine validMissingDoc_mk _ _ _ _ ?_
          intro id r' hr'
          simp only [List.length_set, List.length_append, List.length_cons, List.length_nil]
          have := hm0 id r' hr'
          omega
      · simp only [docStep, h0, hm, hpp] at h
        cases h
    · have hlfd2 : lfdGet st.1.missing wd.documentID = lfd2 := by
        rw [lfdGet, hm]
        rfl
      by_cases hd2 : lfd2.document ≠ none
      · rcases hd2' : lfd2.document with _ | d2
        · rw [hd2'] at hd2
          exact absurd rfl hd2
        · have hd2valid : d2 < st.1.heap.docs.length := by
            refine hm0 wd.documentID d2 ?_
            rw [hlfd2, hd2']
          by_cases hemp : (⟨lfd2.library, lfd2.folder, none⟩ : LibFldDoc).isEmptyLfd = true
          · simp only [docStep, h0, hm, if_pos hd2, hd2', if_pos hemp] at h
            cases h
            constructor
            · refine validDocSlots_mk _ _ _ _ ?_
              intro id r' hr'
              simp only [List.length_set]
              by_cases hk : wd.documentID = id
              · subst hk
                rw [lfdGet_insert_self] at hr'
                cases hr'
                exact hd2valid
              · rw [lfdGet_insert_ne _ _ _ _ hk] at hr'
                exact hv id r' hr'
            · refine validMissingDoc_mk _ _ _ _ ?_
              intro id r' hr'
              simp only [List.length_set]
              by_cases hk : wd.documentID = id
              · subst hk
                rw [lfdGet_erase_self] at hr'
                cases hr'
              · rw [lfdGet_erase_ne _ _ _ hk] at hr'
                exact hm0 id r' hr'
          · simp only [docStep, h0, hm, if_pos hd2, hd2', if_neg hemp] at h
            cases h
            constructor
            · refine validDocSlots_mk _ _ _ _ ?_
              intro id r' hr'
              simp only [List.length_set]
              by_cases hk : wd.documentID = id
              · subst hk
                rw [lfdGet_insert_self] at hr'
                cases hr'
                exact hd2valid
              · rw [lfdGet_insert_ne _ _ _ _ hk] at hr'
                exact hv id r' hr'
            · refine validMissingDoc_mk _ _ _ _ ?_
              intro id r' hr'
              simp only [List.length_set]
              by_cases hk : wd.documentID = id
              · subst hk
                rw [lfdGet_insert_self] at hr'
                cases hr'
              · rw [lfdGet_insert_ne _ _ _ _ hk] at hr'
                exact hm0 id r' hr'
      · simp only [docStep, h0, hm, if_neg hd2] at h
        cases h
  · simp only [docStep, h0] at h
    cases h
    constructor
    · refine validDocSlots_mk _ _ _ _ ?_
      intro id r' hr'
      simp only [List.length_set]
      by_cases hk : wd.documentID = id
      · subst hk
        rw [lfdGet_insert_self] at hr'
        cases hr'
        exact hv _ r h0
      · rw [lfdGet_insert_ne _ _ _ _ hk] at hr'
        exact hv id r' hr'
    · refine validMissingDoc_mk _ _ _ _ ?_
      intro id r' hr'
      simp only [List.length_set]
      exact hm0 id r' hr'

theorem heap_idOf_fld (libsl : List LibraryNode) (fldsl : List FolderNode)
    (docsl : List DocumentNode) (fref : Nat) (n : FolderNode) (hval : fref < fldsl.length) :
    Heap.idOf ⟨libsl, fldsl.set fref n, docsl⟩ (.fld fref) = n.fld.folderID := by
  simp [Heap.idOf, List.getElem?_set, hval]

theorem heap_nameOf_fld (libsl : List LibraryNode) (fldsl : List FolderNode)
    (docsl : List DocumentNode) (fref : Nat) (n : FolderNode) (hval : fref < fldsl.length) :
    Heap.nameOf ⟨libsl, fldsl.set fref n, docsl⟩ (.fld fref) = n.fld.folderName := by
  simp [Heap.nameOf, List.getElem?_set, hval]

theorem heap_idOf_doc (libsl : List LibraryNode) (fldsl : List FolderNode)
    (docsl : List DocumentNode) (dref : Nat) (n : DocumentNode) (hval : dref < docsl.length) :
    Heap.idOf ⟨libsl, fldsl, docsl.set dref n⟩ (.doc dref) = n.doc.documentID := by
  simp [Heap.idOf, List.getElem?_set, hval]

theorem heap_nameOf_doc (libsl : List LibraryNode) (fldsl : List FolderNode)
    (docsl : List DocumentNode) (dref : Nat) (n : DocumentNode) (hval : dref < docsl.length) :
    Heap.nameOf ⟨libsl, fldsl, docsl.set dref n⟩ (.doc dref) = n.doc.documentName := by
  simp [Heap.nameOf, List.getElem?_set, hval]

theorem folderStep_ids_keysub (p : ObjRef) (st : RootState × Objects ObjRef)
    (wf : WebFolder) (hvF : validFolderSlots st.1) (id : Int)
    (h : (mapLookup (folderStep p st wf).2.ids id).isSome) :
    (mapLookup st.2.ids id).isSome ∨ id = wf.folderID := by
  rcases h0 : (lfdGet st.1.idCache wf.folderID).folder with _ | r
  · rcases hm : mapLookup st.1.missing wf.folderID with _ | lfd2
    · simp only [folderStep, h0, hm] at h
      rcases Objects.add_ids_sub _ _ _ _ _ h with hs | hk
      · exact .inl hs
      · right
        rw [hk, heap_idOf_fld _ _ _ _ _ (by simp)]
        rfl
    · by_cases hf2 : lfd2.folder ≠ none
      · simp only [folderStep, h0, hm, if_pos hf2] at h
        rcases Objects.add_ids_sub _ _ _ _ _ h with hs | hk
        · exact .inl hs
        · right
          rw [hk, heap_idOf_fld _ _ _ _ _ (by simp)]
          rfl
      · simp only [folderStep, h0, hm, if_neg hf2] at h
        rcases Objects.add_ids_sub _ _ _ _ _ h with hs | hk
        · exact .inl hs
        · right
          rw [hk, heap_idOf_fld _ _ _ _ _ (by simp)]
          rfl
  · simp only [folderStep, h0] at h
    rcases Objects.add_ids_sub _ _ _ _ _ h with hs | hk
    · exact .inl hs
    · right
      rw [hk, heap_idOf_fld _ _ _ _ _ (hvF _ r h0)]
      rfl

theorem folderStep_names_keysub (p : ObjRef) (st : RootState × Objects ObjRef)
    (wf : WebFolder) (hvF : validFolderSlots st.1) (nm : String)
    (h : (mapLookup (folderStep p st wf).2.names nm).isSome) :
    (mapLookup st.2.names nm).isSome ∨ nm = wf.folderName := by
  rcases h0 : (lfdGet st.1.idCache wf.folderID).folder with _ | r
  · rcases hm : mapLookup st.1.missing wf.folderID with _ | lfd2
    · simp only [folderStep, h0, hm] at h
      rcases Objects.add_names_sub _ _ _ _ _ h with hs | hk
      · exact .inl hs
      · right
        rw [hk, heap_nameOf_fld _ _ _ _ _ (by simp)]
        rfl
    · by_cases hf2 : lfd2.folder ≠ none
      · simp only [folderStep, h0, hm, if_pos hf2] at h
        rcases Objects.add_names_sub _ _ _ _ _ h with hs | hk
        · exact .inl hs
        · right
          rw [hk, heap_nameOf_fld _ _ _ _ _ (by simp)]
          rfl
      · simp only [folderStep, h0, hm, if_neg hf2] at h
        rcases Objects.add_names_sub _ _ _ _ _ h with hs | hk
        · exact .inl hs
        · right
          rw [hk, heap_nameOf_fld _ _ _ _ _ (by simp)]
          rfl
  · simp only [folderStep, h0] at h
    rcases Objects.add_names_sub _ _ _ _ _ h with hs | hk
    · exact .inl hs
    · right
      rw [hk, heap_nameOf_fld _ _ _ _ _ (hvF _ r h0)]
      rfl

theorem docStep_ids_keysub (p : ObjRef) (st st' : RootState × Objects ObjRef)
    (wd : WebDocument) (h : docStep p st wd = some st') (hv : validDocSlots st.1)
    (hm0 : validMissingDoc st.1) (id : Int)
    (hq : (mapLookup st'.2.ids id).isSome) :
    (mapLookup st.2.ids id).isSome ∨ id = wd.documentID := by
  rcases h0 : (lfdGet st.1.idCache wd.documentID).document with _ | r
  · rcases hm : mapLookup st.1.missing wd.documentID with _ | lfd2
    · rcases hpp : p with _ | li | pf | di
      · simp only [docStep, h0, hm, hpp] at h
        cases h
      · simp only [docStep, h0, hm, hpp] at h
        cases h
      · simp only [docStep, h0, hm, hpp] at h
        cases h
        rcases Objects.add_ids_sub _ _ _ _ _ hq with hs | hk
        · exact .inl hs
        · right
          rw [hk, heap_idOf_doc _ _ _ _ _ (by simp)]
      · simp only [docStep, h0, hm, hpp] at h
        cases h
    · have hlfd2 : lfdGet st.1.missing wd.documentID = lfd2 := by
        rw [lfdGet, hm]
        rfl
      by_cases hd2 : lfd2.document ≠ none
      · rcases hd2' : lfd2.document with _ | d2
        · rw [hd2'] at hd2
          exact absurd rfl hd2
        · have hd2valid : d2 < st.1.heap.docs.length := by
            refine hm0 wd.documentID d2 ?_
            rw [hlfd2, hd2']
          by_cases hemp : (⟨lfd2.library, lfd2.folder, none⟩ : LibFldDoc).isEmptyLfd = true
          · simp only [docStep, h0, hm, if_pos hd2, hd2', if_pos hemp] at h
            cases h
            rcases Objects.add_ids_sub _ _ _ _ _ hq with hs | hk
            · exact .inl hs
            · right
              rw [hk, heap_idOf_doc _ _ _ _ _ hd2valid]
          · simp only [docStep, h0, hm, if_pos hd2, hd2', if_neg hemp] at h
            cases h
            rcases Objects.add_ids_sub _ _ _ _ _ hq with hs | hk
            · exact .inl hs
            · right
              rw [hk, heap_idOf_doc _ _ _ _ _ hd2valid]
      · simp only [docStep, h0, hm, if_neg hd2] at h
        cases h
  · simp only [docStep, h0] at h
    cases h
    rcases Objects.add_ids_sub _ _ _ _ _ hq with hs | hk
    · exact .inl hs
    · right
      rw [hk, heap_idOf_doc _ _ _ _ _ (hv _ r h0)]

theorem docStep_names_keysub (p : ObjRef) (st st' : RootState × Objects ObjRef)
    (wd : WebDocument) (h : docStep p st wd = some st') (hv : validDocSlots st.1)
    (hm0 : validMissingDoc st.1) (nm : String)
    (hq : (mapLookup st'.2.names nm).isSome) :
    (mapLookup st.2.names nm).isSome ∨ nm = wd.documentName := by
  rcases h0 : (lfdGet st.1.idCache wd.documentID).document with _ | r
  · rcases hm : mapLookup st.1.missing wd.documentID with _ | lfd2
    · rcases hpp : p with _ | li | pf | di
      · simp only [docStep, h0, hm, hpp] at h
        cases h
      · simp only [docStep, h0, hm, hpp] at h
        cases h
      · simp only [docStep, h0, hm, hpp] at h
        cases h
        rcases Objects.add_names_sub _ _ _ _ _ hq with hs | hk
        · exact .inl hs
        · right
          rw [hk, heap_nameOf_doc _ _ _ _ _ (by simp)]
      · simp only [docStep, h0, hm, hpp] at h
        cases h
    · have hlfd2 : lfdGet st.1.missing wd.documentID = lfd2 := by
        rw [lfdGet, hm]
        rfl
      by_cases hd2 : lfd2.document ≠ none
      · rcases hd2' : lfd2.document with _ | d2
        · rw [hd2'] at hd2
          exact absurd rfl hd2
        · have hd2valid : d2 < st.1.heap.docs.length := by
            refine hm0 wd.documentID d2 ?_
            rw [hlfd2, hd2']
          by_cases hemp : (⟨lfd2.library, lfd2.folder, none⟩ : LibFldDoc).isEmptyLfd = true
          · simp only [docStep, h0, hm, if_pos hd2, hd2', if_pos hemp] at h
            cases h
            rcases Objects.add_names_sub _ _ _ _ _ hq with hs | hk
            · exact .inl hs
            · right
              rw [hk, heap_nameOf_doc _ _ _ _ _ hd2valid]
          · simp only [docStep, h0, hm, if_pos hd2, hd2', if_neg hemp] at h
            cases h
            rcases Objects.add_names_sub _ _ _ _ _ hq with hs | hk
            · exact .inl hs
            · right
              rw [hk, heap_nameOf_doc _ _ _ _ _ hd2valid]
      · simp only [docStep, h0, hm, if_neg hd2] at h
        cases h
  · simp only [docStep, h0] at h
    cases h
    rcases Objects.add_names_sub _ _ _ _ _ hq with hs | hk
    · exact .inl hs
    · right
      rw [hk, heap_nameOf_doc _ _ _ _ _ (hv _ r h0)]

theorem Objects.add_publishes {α : Type} (idf : α → Int) (namef : α → String)
    (o : Objects α) (c : α)
    (h1 : mapLookup o.ids (idf c) = none) (h2 : mapLookup o.names (namef c) = none) :
    pubAt (Objects.add idf namef o c).1 (idf c) (namef c) c := by
  rw [Objects.add_success _ _ _ _ h1 h2]
  exact ⟨o.children.length, mapLookup_insert_self _ _ _, mapLookup_insert_self _ _ _,
    List.getElem?_concat_length _ _⟩

theorem add_fld_publishes (libsl : List LibraryNode) (fldsl : List FolderNode)
    (docsl : List DocumentNode) (fref : Nat) (st2 : Objects ObjRef) (dd : ObjRef)
    (emb1 : List WebFolder) (emb2 : List WebDocument) (oobjs : Objects ObjRef)
    (wfid : Int) (wfnm : String) (hval : fref < fldsl.length)
    (hid : mapLookup st2.ids wfid = none) (hnm : mapLookup st2.names wfnm = none) :
    pubAt (Objects.add
        (Heap.idOf ⟨libsl, fldsl.set fref ⟨dd, ⟨wfid, wfnm, emb1, emb2⟩, oobjs⟩, docsl⟩)
        (Heap.nameOf ⟨libsl, fldsl.set fref ⟨dd, ⟨wfid, wfnm, emb1, emb2⟩, oobjs⟩, docsl⟩)
        st2 (.fld fref)).1 wfid wfnm (.fld fref) := by
  have hkey : Heap.idOf
      (⟨libsl, fldsl.set fref ⟨dd, ⟨wfid, wfnm, emb1, emb2⟩, oobjs⟩, docsl⟩ : Heap)
      (.fld fref) = wfid := by
    rw [heap_idOf_fld _ _ _ _ _ hval]
    rfl
  have hkey2 : Heap.nameOf
      (⟨libsl, fldsl.set fref ⟨dd, ⟨wfid, wfnm, emb1, emb2⟩, oobjs⟩, docsl⟩ : Heap)
      (.fld fref) = wfnm := by
    rw [heap_nameOf_fld _ _ _ _ _ hval]
    rfl
  have h3 := Objects.add_publishes
    (Heap.idOf ⟨libsl, fldsl.set fref ⟨dd, ⟨wfid, wfnm, emb1, emb2⟩, oobjs⟩, docsl⟩)
    (Heap.nameOf ⟨libsl, fldsl.set fref ⟨dd, ⟨wfid, wfnm, emb1, emb2⟩, oobjs⟩, docsl⟩)
    st2 (ObjRef.fld fref)
    (by rw [hkey]; exact hid) (by rw [hkey2]; exact hnm)
  rw [hkey, hkey2] at h3
  exact h3

theorem add_doc_publishes (libsl : List LibraryNode) (fldsl : List FolderNode)
    (docsl : List DocumentNode) (dref : Nat) (st2 : Objects ObjRef) (pf : Nat)
    (wdid : Int) (wdnm : String) (hval : dref < docsl.length)
    (hid : mapLookup st2.ids wdid = none) (hnm : mapLookup st2.names wdnm = none) :
    pubAt (Objects.add
        (Heap.idOf ⟨libsl, fldsl, docsl.set dref ⟨pf, ⟨wdid, wdnm⟩⟩⟩)
        (Heap.nameOf ⟨libsl, fldsl, docsl.set dref ⟨pf, ⟨wdid, wdnm⟩⟩⟩)
        st2 (.doc dref)).1 wdid wdnm (.doc dref) := by
  have hkey : Heap.idOf (⟨libsl, fldsl, docsl.set dref ⟨pf, ⟨wdid, wdnm⟩⟩⟩ : Heap)
      (.doc dref) = wdid := by
    rw [heap_idOf_doc _ _ _ _ _ hval]
  have hkey2 : Heap.nameOf (⟨libsl, fldsl, docsl.set dref ⟨pf, ⟨wdid, wdnm⟩⟩⟩ : Heap)
      (.doc dref) = wdnm := by
    rw [heap_nameOf_doc _ _ _ _ _ hval]
  have h3 := Objects.add_publishes
    (Heap.idOf ⟨libsl, fldsl, docsl.set dref ⟨pf, ⟨wdid, wdnm⟩⟩⟩)
    (Heap.nameOf ⟨libsl, fldsl, docsl.set dref ⟨pf, ⟨wdid, wdnm⟩⟩⟩)
    st2 (ObjRef.doc dref)
    (by rw [hkey]; exact hid) (by rw [hkey2]; exact hnm)
  rw [hkey, hkey2] at h3
  exact h3

theorem folderStep_publishes (p : ObjRef) (st : RootState × Objects ObjRef)
    (wf : WebFolder) (fref : Nat)
    (hslot : (lfdGet st.1.idCache wf.folderID).folder = some fref)
    (hvF : validFolderSlots st.1)
    (hid : mapLookup st.2.ids wf.folderID = none)
    (hnm : mapLookup st.2.names wf.folderName = none) :
    pubAt (folderStep p st wf).2 wf.folderID wf.folderName (.fld fref) := by
  simp only [folderStep, hslot]
  exact add_fld_publishes _ _ _ _ _ _ _ _ _ _ _ (hvF _ _ hslot) hid hnm

theorem docStep_publishes (p : ObjRef) (st : RootState × Objects ObjRef)
    (wd : WebDocument) (dref : Nat)
    (hslot : (lfdGet st.1.idCache wd.documentID).document = some dref)
    (hv : validDocSlots st.1)
    (hid : mapLookup st.2.ids wd.documentID = none)
    (hnm : mapLookup st.2.names wd.documentName = none) :
    ∃ st', docStep p st wd = some st' ∧
      pubAt st'.2 wd.documentID wd.documentName (.doc dref) := by
  simp only [docStep, hslot]
  refine ⟨_, rfl, ?_⟩
  exact add_doc_publishes _ _ _ _ _ _ _ _ (hv _ _ hslot) hid hnm

/-- The listing has no duplicate raw ids and no duplicate names, across
both kinds. -/
def cleanListing (wfs : List WebFolder) (wds : List WebDocument) : Prop :=
  ((wfs.map WebFolder.folderID) ++ (wds.map WebDocument.documentID)).Nodup ∧
  ((wfs.map WebFolder.folderName) ++ (wds.map WebDocument.documentName)).Nodup

theorem folderFold_preserves_pubAt (p : ObjRef) :
    ∀ (wfs : List WebFolder) (st : RootState × Objects ObjRef) (id : Int) (nm : String)
      (x : ObjRef), pubAt st.2 id nm x → pubAt (List.foldl (folderStep p) st wfs).2 id nm x := by
  intro wfs
  induction wfs with
  | nil =>
    intro st id nm x h
    exact h
  | cons hd rest ih =>
    intro st id nm x h
    rw [List.foldl_cons]
    exact ih (folderStep p st hd) id nm x (folderStep_preserves_pubAt p st hd id nm x h)

theorem folderFold_validF (p : ObjRef) :
    ∀ (wfs : List WebFolder) (st : RootState × Objects ObjRef),
      validFolderSlots st.1 → validFolderSlots (List.foldl (folderStep p) st wfs).1 := by
  intro wfs
  induction wfs with
  | nil =>
    intro st h
    exact h
  | cons hd rest ih =>
    intro st h
    rw [List.foldl_cons]
    exact ih (folderStep p st hd) (folderStep_validF p st hd h)

theorem folderFold_docValid (p : ObjRef) :
    ∀ (wfs : List WebFolder) (st : RootState × Objects ObjRef),
      validDocSlots st.1 → validMissingDoc st.1 →
      validDocSlots (List.foldl (folderStep p) st wfs).1 ∧
        validMissingDoc (List.foldl (folderStep p) st wfs).1 := by
  intro wfs
  induction wfs with
  | nil =>
    intro st h1 h2
    exact ⟨h1, h2⟩
  | cons hd rest ih =>
    intro st h1 h2
    rw [List.foldl_cons]
    obtain ⟨h1', h2'⟩ := folderStep_docValid p st hd h1 h2
    exact ih (folderStep p st hd) h1' h2'

theorem folderFold_ids_sub (p : ObjRef) :
    ∀ (wfs : List WebFolder) (st : RootState × Objects ObjRef),
      validFolderSlots st.1 →
      ∀ id, (mapLookup (List.foldl (folderStep p) st wfs).2.ids id).isSome →
        (mapLookup st.2.ids id).isSome ∨ ∃ wf ∈ wfs, wf.folderID = id := by
  intro wfs
  induction wfs with
  | nil =>
    intro st _ id h
    exact .inl h
  | cons hd rest ih =>
    intro st hv id h
    rw [List.foldl_cons] at h
    rcases ih (folderStep p st hd) (folderStep_validF p st hd hv) id h with hs | ⟨wf, hw, he⟩
    · rcases folderStep_ids_keysub p st hd hv id hs with hs' | he'
      · exact .inl hs'
      · exact .inr ⟨hd, List.mem_cons_self hd rest, he'.symm⟩
    · exact .inr ⟨wf, List.mem_cons_of_mem hd hw, he⟩

theorem folderFold_names_sub (p : ObjRef) :
    ∀ (wfs : List WebFolder) (st : RootState × Objects ObjRef),
      validFolderSlots st.1 →
      ∀ nm, (mapLookup (List.foldl (folderStep p) st wfs).2.names nm).isSome →
        (mapLookup st.2.names nm).isSome ∨ ∃ wf ∈ wfs, wf.folderName = nm := by
  intro wfs
  induction wfs with
  | nil =>
    intro st _ nm h
    exact .inl h
  | cons hd rest ih =>
    intro st hv nm h
    rw [List.foldl_cons] at h
    rcases ih (folderStep p st hd) (folderStep_validF p st hd hv) nm h with hs | ⟨wf, hw, he⟩
    · rcases folderStep_names_keysub p st hd hv nm hs with hs' | he'
      · exact .inl hs'
      · exact .inr ⟨hd, List.mem_cons_self hd rest, he'.symm⟩
    · exact .inr ⟨wf, List.mem_cons_of_mem hd hw, he⟩

theorem folderFold_publishes (p : ObjRef) :
    ∀ (wfs : List WebFolder) (st : RootState × Objects ObjRef) (wf : WebFolder) (fref : Nat),
      wf ∈ wfs →
      validFolderSlots st.1 →
      (lfdGet st.1.idCache wf.folderID).folder = some fref →
      (wfs.map WebFolder.folderID).Nodup →
      (wfs.map WebFolder.folderName).Nodup →
      (∀ wf' ∈ wfs, mapLookup st.2.ids wf'.folderID = none) →
      (∀ wf' ∈ wfs, mapLookup st.2.names wf'.folderName = none) →
      pubAt (List.foldl (folderStep p) st wfs).2 wf.folderID wf.folderName (.fld fref) := by
  intro wfs
  induction wfs with
  | nil =>
    intro st wf fref hmem
    cases hmem
  | cons hd rest ih =>
    intro st wf fref hmem hv hslot hnodid hnodnm hid0 hnm0
    rw [List.foldl_cons]
    rcases List.mem_cons.mp hmem with heq | hmem'
    · subst heq
      have hpub := folderStep_publishes p st wf fref hslot hv
        (hid0 wf (List.mem_cons_self wf rest)) (hnm0 wf (List.mem_cons_self wf rest))
      exact folderFold_preserves_pubAt p rest (folderStep p st wf) _ _ _ hpub
    · refine ih (folderStep p st hd) wf fref hmem' (folderStep_validF p st hd hv)
        (((folderStep_preserves p st hd) wf.folderID).2.1 fref hslot)
        (List.Nodup.of_cons hnodid) (List.Nodup.of_cons hnodnm) ?_ ?_
      · intro wf' hw'
        rcases hlq : mapLookup (folderStep p st hd).2.ids wf'.folderID with _ | j
        · rfl
        · exfalso
          rcases folderStep_ids_keysub p st hd hv wf'.folderID (by rw [hlq]; rfl) with hs | he
          · rw [hid0 wf' (List.mem_cons_of_mem hd hw')] at hs
            cases hs
          · have hin : hd.folderID ∈ rest.map WebFolder.folderID := by
              rw [← he]
              exact List.mem_map_of_mem WebFolder.folderID hw'
            rw [List.map_cons, List.nodup_cons] at hnodid
            exact hnodid.1 hin
      · intro wf' hw'
        rcases hlq : mapLookup (folderStep p st hd).2.names wf'.folderName with _ | j
        · rfl
        · exfalso
          rcases folderStep_names_keysub p st hd hv wf'.folderName (by rw [hlq]; rfl)
            with hs | he
          · rw [hnm0 wf' (List.mem_cons_of_mem hd hw')] at hs
            cases hs
          · have hin : hd.folderName ∈ rest.map WebFolder.folderName := by
              rw [← he]
              exact List.mem_map_of_mem WebFolder.folderName hw'
            rw [List.map_cons, List.nodup_cons] at hnodnm
            exact hnodnm.1 hin

theorem docFold_publishes (p : ObjRef) :
    ∀ (wds : List WebDocument) (st : RootState × Objects ObjRef) (wd : WebDocument)
      (dref : Nat),
      wd ∈ wds →
      validDocSlots st.1 → validMissingDoc st.1 →
      (lfdGet st.1.idCache wd.documentID).document = some dref →
      (wds.map WebDocument.documentID).Nodup →
      (wds.map WebDocument.documentName).Nodup →
      (∀ wd' ∈ wds, mapLookup st.2.ids wd'.documentID = none) →
      (∀ wd' ∈ wds, mapLookup st.2.names wd'.documentName = none) →
      ∀ st', List.foldlM (docStep p) st wds = some st' →
        pubAt st'.2 wd.documentID wd.documentName (.doc dref) := by
  intro wds
  induction wds with
  | nil =>
    intro st wd dref hmem
    cases hmem
  | cons hd rest ih =>
    intro st wd dref hmem hv hm0 hslot hnodid hnodnm hid0 hnm0 st' hfold
    rcases hstep : docStep p st hd with _ | mid
    · simp only [List.foldlM, hstep] at hfold
      cases hfold
    · simp only [List.foldlM, hstep] at hfold
      rcases List.mem_cons.mp hmem with heq | hmem'
      · subst heq
        obtain ⟨st1, hstep', hpub⟩ := docStep_publishes p st wd dref hslot hv
          (hid0 wd (List.mem_cons_self wd rest)) (hnm0 wd (List.mem_cons_self wd rest))
        rw [hstep'] at hstep
        cases hstep
        exact foldlM_docStep_preserves_pubAt p rest _ st' hfold _ _ _ hpub
      · refine ih mid wd dref hmem' (docStep_docValid p st mid hd hstep hv hm0).1
          (docStep_docValid p st mid hd hstep hv hm0).2
          (((docStep_preserves p st mid hd hstep) wd.documentID).2.2 dref hslot)
          (List.Nodup.of_cons hnodid) (List.Nodup.of_cons hnodnm) ?_ ?_ st' hfold
        · intro wd' hw'
          rcases hlq : mapLookup mid.2.ids wd'.documentID with _ | j
          · rfl
          · exfalso
            rcases docStep_ids_keysub p st mid hd hstep hv hm0 wd'.documentID
              (by rw [hlq]; rfl) with hs | he
            · rw [hid0 wd' (List.mem_cons_of_mem hd hw')] at hs
              cases hs
            · have hin : hd.documentID ∈ rest.map WebDocument.documentID := by
                rw [← he]
                exact List.mem_map_of_mem WebDocument.documentID hw'
              rw [List.map_cons, List.nodup_cons] at hnodid
              exact hnodid.1 hin
        · intro wd' hw'
          rcases hlq : mapLookup mid.2.names wd'.documentName with _ | j
          · rfl
          · exfalso
            rcases docStep_names_keysub p st mid hd hstep hv hm0 wd'.documentName
              (by rw [hlq]; rfl) with hs | he
            · rw [hnm0 wd' (List.mem_cons_of_mem hd hw')] at hs
              cases hs
            · have hin : hd.documentName ∈ rest.map WebDocument.documentName := by
                rw [← he]
                exact List.mem_map_of_mem WebDocument.documentName hw'
              rw [List.map_cons, List.nodup_cons] at hnodnm
              exact hnodnm.1 hin

theorem updateObjects_publishes_folder (s : RootState) (p : ObjRef) (obs : Objects ObjRef)
    (wfs : List WebFolder) (wds : List WebDocument) (s' : RootState)
    (objs' : Objects ObjRef) (h : updateObjects s p obs wfs wds = some (s', objs'))
    (wf : WebFolder) (fref : Nat) (hmem : wf ∈ wfs) (hclean : cleanListing wfs wds)
    (hvF : validFolderSlots s)
    (hslot : (lfdGet s.idCache wf.folderID).folder = some fref) :
    pubAt objs' wf.folderID wf.folderName (.fld fref) := by
  rcases h2 : List.foldlM (docStep p) (List.foldl (folderStep p) (s, Objects.empty) wfs) wds
    with _ | st2
  · simp only [updateObjects, bind, Option.bind, h2] at h
    cases h
  · rcases h4 : List.foldlM (missingStep st2.2) st2.1 obs.children with _ | s3
    · simp only [updateObjects, bind, Option.bind, h2, h4] at h
      cases h
    · simp only [updateObjects, bind, Option.bind, h2, h4, pure] at h
      cases h
      have hffold := folderFold_publishes p wfs (s, Objects.empty) wf fref hmem hvF hslot
        (List.Nodup.of_append_left hclean.1) (List.Nodup.of_append_left hclean.2)
        (fun _ _ => rfl) (fun _ _ => rfl)
      exact foldlM_docStep_preserves_pubAt p wds _ st2 h2 _ _ _ hffold

theorem updateObjects_publishes_doc (s : RootState) (p : ObjRef) (obs : Objects ObjRef)
    (wfs : List WebFolder) (wds : List WebDocument) (s' : RootState)
    (objs' : Objects ObjRef) (h : updateObjects s p obs wfs wds = some (s', objs'))
    (wd : WebDocument) (dref : Nat) (hmem : wd ∈ wds) (hclean : cleanListing wfs wds)
    (hvF : validFolderSlots s) (hvD : validDocSlots s) (hvM : validMissingDoc s)
    (hslot : (lfdGet s.idCache wd.documentID).document = some dref) :
    pubAt objs' wd.documentID wd.documentName (.doc dref) := by
  rcases h2 : List.foldlM (docStep p) (List.foldl (folderStep p) (s, Objects.empty) wfs) wds
    with _ | st2
  · simp only [updateObjects, bind, Option.bind, h2] at h
    cases h
  · rcases h4 : List.foldlM (missingStep st2.2) st2.1 obs.children with _ | s3
    · simp only [updateObjects, bind, Option.bind, h2, h4] at h
      cases h
    · simp only [updateObjects, bind, Option.bind, h2, h4, pure] at h
      cases h
      have hvF1 := folderFold_validF p wfs (s, Objects.empty) hvF
      obtain ⟨hvD1, hvM1⟩ := folderFold_docValid p wfs (s, Objects.empty) hvD hvM
      have hslot1 := (foldl_folderStep_preserves p wfs (s, Objects.empty)
        wd.documentID).2.2 dref hslot
      have hdisj : ∀ x, x ∈ wfs.map WebFolder.folderID →
          x ∈ wds.map WebDocument.documentID → False := by
        intro x hx1 hx2
        exact (List.disjoint_of_nodup_append hclean.1) hx1 hx2
      have hdisjn : ∀ x, x ∈ wfs.map WebFolder.folderName →
          x ∈ wds.map WebDocument.documentName → False := by
        intro x hx1 hx2
        exact (List.disjoint_of_nodup_append hclean.2) hx1 hx2
      refine docFold_publishes p wds (List.foldl (folderStep p) (s, Objects.empty) wfs)
        wd dref hmem hvD1 hvM1 hslot1 (hclean.1.of_append_right)
        (hclean.2.of_append_right) ?_ ?_ st2 h2
      · intro wd' hw'
        rcases hlq : mapLookup (List.foldl (folderStep p) (s, Objects.empty) wfs).2.ids
          wd'.documentID with _ | j
        · rfl
        · exfalso
          rcases folderFold_ids_sub p wfs (s, Objects.empty) hvF wd'.documentID
            (by rw [hlq]; rfl) with hs | ⟨wf', hwf', he⟩
          · simp [Objects.empty, mapLookup] at hs
          · refine hdisj wd'.documentID ?_ ?_
            · rw [← he]
              exact List.mem_map_of_mem WebFolder.folderID hwf'
            · exact List.mem_map_of_mem WebDocument.documentID hw'
      · intro wd' hw'
        rcases hlq : mapLookup (List.foldl (folderStep p) (s, Objects.empty) wfs).2.names
          wd'.documentName with _ | j
        · rfl
        · exfalso
          rcases folderFold_names_sub p wfs (s, Objects.empty) hvF wd'.documentName
            (by rw [hlq]; rfl) with hs | ⟨wf', hwf', he⟩
          · simp [Objects.empty, mapLookup] at hs
          · refine hdisjn wd'.documentName ?_ ?_
            · rw [← he]
              exact List.mem_map_of_mem WebFolder.folderName hwf'
            · exact List.mem_map_of_mem WebDocument.documentName hw'

/-! ### Heap geometry across a merge -/

theorem folderStep_flds_len (p : ObjRef) (st : RootState × Objects ObjRef)
    (wf : WebFolder) :
    st.1.heap.flds.length ≤ (folderStep p st wf).1.heap.flds.length := by
  rcases h0 : (lfdGet st.1.idCache wf.folderID).folder with _ | r
  · rcases hm : mapLookup st.1.missing wf.folderID with _ | lfd2
    · simp only [folderStep, h0, hm, List.length_set, List.length_append,
        List.length_cons, List.length_nil]
      omega
    · by_cases hf2 : lfd2.folder ≠ none
      · simp only [folderStep, h0, hm, if_pos hf2, List.length_set, List.length_append,
          List.length_cons, List.length_nil]
        omega
      · simp only [folderStep, h0, hm, if_neg hf2, List.length_set, List.length_append,
          List.length_cons, List.length_nil]
        omega
  · simp only [folderStep, h0, List.length_set]
    omega

theorem folderFold_flds_len (p : ObjRef) :
    ∀ (wfs : List WebFolder) (st : RootState × Objects ObjRef),
      st.1.heap.flds.length ≤ (List.foldl (folderStep p) st wfs).1.heap.flds.length := by
  intro wfs
  induction wfs with
  | nil =>
    intro st
    exact le_refl _
  | cons wf rest ih =>
    intro st
    rw [List.foldl_cons]
    exact le_trans (folderStep_flds_len p st wf) (ih (folderStep p st wf))

theorem docStep_flds (p : ObjRef) (st st' : RootState × Objects ObjRef) (wd : WebDocument)
    (h : docStep p st wd = some st') : st'.1.heap.flds = st.1.heap.flds := by
  rcases h0 : (lfdGet st.1.idCache wd.documentID).document with _ | r
  · rcases hm : mapLookup st.1.missing wd.documentID with _ | lfd2
    · rcases hp : p with _ | li | pf | di
      · simp only [docStep, h0, hm, hp] at h
        cases h
      · simp only [docStep, h0, hm, hp] at h
        cases h
      · simp only [docStep, h0, hm, hp] at h
        cases h
        rfl
      · simp only [docStep, h0, hm, hp] at h
        cases h
    · by_cases hd2 : lfd2.document ≠ none
      · rcases hd2' : lfd2.document with _ | d2
        · rw [hd2'] at hd2
          exact absurd rfl hd2
        · simp only [docStep, h0, hm, if_pos hd2, hd2'] at h
          cases h
          rfl
      · simp only [docStep, h0, hm, if_neg hd2] at h
        cases h
  · simp only [docStep, h0] at h
    cases h
    rfl

theorem foldlM_docStep_flds (p : ObjRef) :
    ∀ (wds : List WebDocument) (st st' : RootState × Objects ObjRef),
      List.foldlM (docStep p) st wds = some st' → st'.1.heap.flds = st.1.heap.flds := by
  intro wds
  induction wds with
  | nil =>
    intro st st' h
    simp only [List.foldlM, pure] at h
    cases h
    rfl
  | cons wd rest ih =>
    intro st st' h
    rcases hstep : docStep p st wd with _ | mid
    · simp only [List.foldlM, hstep] at h
      cases h
    · simp only [List.foldlM, hstep] at h
      rw [ih mid st' h, docStep_flds p st mid wd hstep]

theorem missingStep_heap (no : Objects ObjRef) (s : RootState) (c : ObjRef) (s' : RootState)
    (h : missingStep no s c = some s') : s'.heap = s.heap := by
  rcases hl : mapLookup no.ids (s.heap.idOf c) with _ | j
  · cases c with
    | root =>
      simp only [missingStep, hl] at h
      cases h
    | lib i =>
      simp only [missingStep, hl] at h
      cases h
    | fld f =>
      simp only [missingStep, hl] at h
      cases h
      rfl
    | doc d =>
      simp only [missingStep, hl] at h
      cases h
      rfl
  · simp only [missingStep, hl] at h
    cases h
    rfl

theorem foldlM_missingStep_heap (no : Objects ObjRef) :
    ∀ (cs : List ObjRef) (s s' : RootState),
      List.foldlM (missingStep no) s cs = some s' → s'.heap = s.heap := by
  intro cs
  induction cs with
  | nil =>
    intro s s' h
    simp only [List.foldlM, pure] at h
    cases h
    rfl
  | cons c rest ih =>
    intro s s' h
    rcases hstep : missingStep no s c with _ | mid
    · simp only [List.foldlM, hstep] at h
      cases h
    · simp only [List.foldlM, hstep] at h
      rw [ih mid s' h, missingStep_heap no s c mid hstep]

theorem updateObjects_flds_len (s : RootState) (p : ObjRef) (obs : Objects ObjRef)
    (wfs : List WebFolder) (wds : List WebDocument) (s' : RootState)
    (objs' : Objects ObjRef) (h : updateObjects s p obs wfs wds = some (s', objs')) :
    s.heap.flds.length ≤ s'.heap.flds.length := by
  rcases h2 : List.foldlM (docStep p) (List.foldl (folderStep p) (s, Objects.empty) wfs) wds
    with _ | st2
  · simp only [updateObjects, bind, Option.bind, h2] at h
    cases h
  · rcases h4 : List.foldlM (missingStep st2.2) st2.1 obs.children with _ | s3
    · simp only [updateObjects, bind, Option.bind, h2, h4] at h
      cases h
    · simp only [updateObjects, bind, Option.bind, h2, h4, pure] at h
      cases h
      have e1 := folderFold_flds_len p wfs (s, Objects.empty)
      have e2 := foldlM_docStep_flds p wds _ st2 h2
      have e3 := foldlM_missingStep_heap st2.2 obs.children st2.1 _ h4
      rw [e3, e2]
      exact e1

theorem setFldObjs_get_self (hp : Heap) (i : Nat) (o : Objects ObjRef) (n : FolderNode)
    (hn : hp.flds[i]? = some n) :
    (hp.setFldObjs i o).flds[i]? = some ⟨n.dotDot, n.fld, o⟩ := by
  have hlt : i < hp.flds.length := (List.getElem?_eq_some.mp hn).1
  simp only [Heap.setFldObjs, hn]
  rw [List.getElem?_eq_getElem (by simpa using hlt), List.getElem_set_self]

/-! ### Decidable sufficient conditions for slot validity -/

theorem mapLookup_mem {α β : Type} [DecidableEq α] (m : GoMap α β) (k : α) (v : β)
    (h : mapLookup m k = some v) : List.Mem (k, v) m := by
  induction m with
  | nil => cases h
  | cons hd t ih =>
    obtain ⟨k₀, v₀⟩ := hd
    by_cases hk : k₀ = k
    · subst hk
      simp only [mapLookup, if_pos rfl] at h
      cases h
      exact List.mem_cons_self _ _
    · simp only [mapLookup, if_neg hk] at h
      exact List.mem_cons_of_mem _ (ih h)

/-- All folder slots of the map are below `nf` (checkable by evaluation). -/
def slotsOkF (m : GoMap Int LibFldDoc) (nf : Nat) : Bool :=
  m.all fun kv => kv.2.folder.all fun r => r < nf

/-- All document slots of the map are below `nd` (checkable by evaluation). -/
def slotsOkD (m : GoMap Int LibFldDoc) (nd : Nat) : Bool :=
  m.all fun kv => kv.2.document.all fun r => r < nd

theorem validFolderSlots_of_ok (s : RootState)
    (h : slotsOkF s.idCache s.heap.flds.length = true) : validFolderSlots s := by
  intro id r hr
  rw [lfdGet] at hr
  rcases hl : mapLookup s.idCache id with _ | b
  · rw [hl] at hr
    cases hr
  · rw [hl] at hr
    simp only [Option.getD_some] at hr
    have hmem := mapLookup_mem s.idCache id b hl
    have hall := (List.all_eq_true.mp h) _ hmem
    rw [hr] at hall
    simpa using hall

theorem validDocSlots_of_ok (s : RootState)
    (h : slotsOkD s.idCache s.heap.docs.length = true) : validDocSlots s := by
  intro id r hr
  rw [lfdGet] at hr
  rcases hl : mapLookup s.idCache id with _ | b
  · rw [hl] at hr
    cases hr
  · rw [hl] at hr
    simp only [Option.getD_some] at hr
    have hmem := mapLookup_mem s.idCache id b hl
    have hall := (List.all_eq_true.mp h) _ hmem
    rw [hr] at hall
    simpa using hall

theorem validMissingDoc_of_ok (s : RootState)
    (h : slotsOkD s.missing s.heap.docs.length = true) : validMissingDoc s := by
  intro id r hr
  rw [lfdGet] at hr
  rcases hl : mapLookup s.missing id with _ | b
  · rw [hl] at hr
    cases hr
  · rw [hl] at hr
    simp only [Option.getD_some] at hr
    have hmem := mapLookup_mem s.missing id b hl
    have hall := (List.all_eq_true.mp h) _ hmem
    rw [hr] at hall
    simpa using hall

/-! ### Library slots and the `Root.update` library loop -/

/-- Every `idCache` library slot is a live `libs` arena index. -/
def validLibSlots (s : RootState) : Prop :=
  ∀ id r, (lfdGet s.idCache id).library = some r → r < s.heap.libs.length

/-- Every `missing` registry library slot is a live `libs` arena index. -/
def validMissingLib (s : RootState) : Prop :=
  ∀ id r, (lfdGet s.missing id).library = some r → r < s.heap.libs.length

theorem validLibSlots_mk (H : Heap) (O : Objects ObjRef) (C M : GoMap Int LibFldDoc)
    (h : ∀ id r, (lfdGet C id).library = some r → r < H.libs.length) :
    validLibSlots ⟨H, O, C, M⟩ := h

theorem validMissingLib_mk (H : Heap) (O : Objects ObjRef) (C M : GoMap Int LibFldDoc)
    (h : ∀ id r, (lfdGet M id).library = some r → r < H.libs.length) :
    validMissingLib ⟨H, O, C, M⟩ := h

/-- All library slots of the map are below `nl` (checkable by evaluation). -/
def slotsOkL (m : GoMap Int LibFldDoc) (nl : Nat) : Bool :=
  m.all fun kv => kv.2.library.all fun r => r < nl

theorem validLibSlots_of_ok (s : RootState)
    (h : slotsOkL s.idCache s.heap.libs.length = true) : validLibSlots s := by
  intro id r hr
  rw [lfdGet] at hr
  rcases hl : mapLookup s.idCache id with _ | b
  · rw [hl] at hr
    cases hr
  · rw [hl] at hr
    simp only [Option.getD_some] at hr
    have hmem := mapLookup_mem s.idCache id b hl
    have hall := (List.all_eq_true.mp h) _ hmem
    rw [hr] at hall
    simpa using hall

theorem validMissingLib_of_ok (s : RootState)
    (h : slotsOkL s.missing s.heap.libs.length = true) : validMissingLib s := by
  intro id r hr
  rw [lfdGet] at hr
  rcases hl : mapLookup s.missing id with _ | b
  · rw [hl] at hr
    cases hr
  · rw [hl] at hr
    simp only [Option.getD_some] at hr
    have hmem := mapLookup_mem s.missing id b hl
    have hall := (List.all_eq_true.mp h) _ hmem
    rw [hr] at hall
    simpa using hall

theorem heap_idOf_lib (libsl : List LibraryNode) (fldsl : List FolderNode)
    (docsl : List DocumentNode) (lref : Nat) (n : LibraryNode) (hval : lref < libsl.length) :
    Heap.idOf ⟨libsl.set lref n, fldsl, docsl⟩ (.lib lref) = n.lib.libraryID := by
  simp [Heap.idOf, List.getElem?_set, hval]

theorem heap_nameOf_lib (libsl : List LibraryNode) (fldsl : List FolderNode)
    (docsl : List DocumentNode) (lref : Nat) (n : LibraryNode) (hval : lref < libsl.length) :
    Heap.nameOf ⟨libsl.set lref n, fldsl, docsl⟩ (.lib lref) = n.lib.libraryName := by
  simp [Heap.nameOf, List.getElem?_set, hval]

theorem add_lib_publishes (libsl : List LibraryNode) (fldsl : List FolderNode)
    (docsl : List DocumentNode) (lref : Nat) (st2 : Objects ObjRef)
    (oobjs : Objects ObjRef) (wlid : Int) (wlnm : String) (hval : lref < libsl.length)
    (hid : mapLookup st2.ids wlid = none) (hnm : mapLookup st2.names wlnm = none) :
    pubAt (Objects.add
        (Heap.idOf ⟨libsl.set lref ⟨⟨wlid, wlnm⟩, oobjs⟩, fldsl, docsl⟩)
        (Heap.nameOf ⟨libsl.set lref ⟨⟨wlid, wlnm⟩, oobjs⟩, fldsl, docsl⟩)
        st2 (.lib lref)).1 wlid wlnm (.lib lref) := by
  have hkey : Heap.idOf
      (⟨libsl.set lref ⟨⟨wlid, wlnm⟩, oobjs⟩, fldsl, docsl⟩ : Heap) (.lib lref) = wlid := by
    rw [heap_idOf_lib _ _ _ _ _ hval]
  have hkey2 : Heap.nameOf
      (⟨libsl.set lref ⟨⟨wlid, wlnm⟩, oobjs⟩, fldsl, docsl⟩ : Heap) (.lib lref) = wlnm := by
    rw [heap_nameOf_lib _ _ _ _ _ hval]
  have h3 := Objects.add_publishes
    (Heap.idOf ⟨libsl.set lref ⟨⟨wlid, wlnm⟩, oobjs⟩, fldsl, docsl⟩)
    (Heap.nameOf ⟨libsl.set lref ⟨⟨wlid, wlnm⟩, oobjs⟩, fldsl, docsl⟩)
    st2 (ObjRef.lib lref)
    (by rw [hkey]; exact hid) (by rw [hkey2]; exact hnm)
  rw [hkey, hkey2] at h3
  exact h3

theorem libStep_publishes (st : RootState × Objects ObjRef) (wl : WebLibrary) (lref : Nat)
    (hslot : (lfdGet st.1.idCache wl.libraryID).library = some lref)
    (hv : validLibSlots st.1)
    (hid : mapLookup st.2.ids wl.libraryID = none)
    (hnm : mapLookup st.2.names wl.libraryName = none) :
    ∃ st', libStep st wl = some st' ∧
      pubAt st'.2 wl.libraryID wl.libraryName (.lib lref) := by
  simp only [libStep, hslot]
  refine ⟨_, rfl, ?_⟩
  exact add_lib_publishes _ _ _ _ _ _ _ _ (hv _ _ hslot) hid hnm

theorem libStep_preserves_pubAt (st st' : RootState × Objects ObjRef)
    (wl : WebLibrary) (h : libStep st wl = some st') (id : Int) (nm : String)
    (x : ObjRef) (hp : pubAt st.2 id nm x) : pubAt st'.2 id nm x := by
  rcases h0 : (lfdGet st.1.idCache wl.libraryID).library with _ | r
  · rcases hm : mapLookup st.1.missing wl.libraryID with _ | lfd2
    · simp only [libStep, h0, hm] at h
      cases h
      exact Objects.add_preserves_pubAt _ _ _ _ _ _ _ hp
    · by_cases hl2 : lfd2.library ≠ none
      · rcases hl2' : lfd2.library with _ | l2
        · rw [hl2'] at hl2
          exact absurd rfl hl2
        · simp only [libStep, h0, hm, if_pos hl2, hl2'] at h
          cases h
          exact Objects.add_preserves_pubAt _ _ _ _ _ _ _ hp
      · simp only [libStep, h0, hm, if_neg hl2] at h
        cases h
  · simp only [libStep, h0] at h
    cases h
    exact Objects.add_preserves_pubAt _ _ _ _ _ _ _ hp

theorem foldlM_libStep_preserves_pubAt :
    ∀ (wls : List WebLibrary) (st st' : RootState × Objects ObjRef),
      List.foldlM libStep st wls = some st' →
      ∀ id nm x, pubAt st.2 id nm x → pubAt st'.2 id nm x := by
  intro wls
  induction wls with
  | nil =>
    intro st st' h id nm x hp
    simp only [List.foldlM, pure] at h
    cases h
    exact hp
  | cons wl rest ih =>
    intro st st' h id nm x hp
    rcases hstep : libStep st wl with _ | mid
    · simp only [List.foldlM, hstep] at h
      cases h
    · simp only [List.foldlM, hstep] at h
      exact ih mid st' h id nm x (libStep_preserves_pubAt st mid wl hstep id nm x hp)

theorem libStep_libValid (st st' : RootState × Objects ObjRef)
    (wl : WebLibrary) (h : libStep st wl = some st')
    (hv : validLibSlots st.1) (hm0 : validMissingLib st.1) :
    validLibSlots st'.1 ∧ validMissingLib st'.1 := by
  rcases h0 : (lfdGet st.1.idCache wl.libraryID).library with _ | r
  · rcases hm : mapLookup st.1.missing wl.libraryID with _ | lfd2
    · simp only [libStep, h0, hm] at h
      cases h
      constructor
      · refine validLibSlots_mk _ _ _ _ ?_
        intro id r' hr'
        simp only [List.length_set, List.length_append, List.length_cons, List.length_nil]
        by_cases hk : wl.libraryID = id
        · subst hk
          rw [lfdGet_insert_self] at hr'
          cases hr'
          omega
        · rw [lfdGet_insert_ne _ _ _ _ hk] at hr'
          have := hv id r' hr'
          omega
      · refine validMissingLib_mk _ _ _ _ ?_
        intro id r' hr'
        simp only [List.length_set, List.length_append, List.length_cons, List.length_nil]
        have := hm0 id r' hr'
        omega
    · have hlfd2 : lfdGet st.1.missing wl.libraryID = lfd2 := by
        rw [lfdGet, hm]
        rfl
      by_cases hl2 : lfd2.library ≠ none
      · rcases hl2' : lfd2.library with _ | l2
        · rw [hl2'] at hl2
          exact absurd rfl hl2
        · have hl2valid : l2 < st.1.heap.libs.length := by
            refine hm0 wl.libraryID l2 ?_
            rw [hlfd2, hl2']
          by_cases hemp : (⟨none, lfd2.folder, lfd2.document⟩ : LibFldDoc).isEmptyLfd = true
          · simp only [libStep, h0, hm, if_pos hl2, hl2', LibFldDoc.updateMapGo,
              if_pos hemp] at h
            cases h
            constructor
            · refine validLibSlots_mk _ _ _ _ ?_
              intro id r' hr'
              simp only [List.length_set]
              by_cases hk : wl.libraryID = id
              · subst hk
                rw [lfdGet_insert_self] at hr'
                cases hr'
                exact hl2valid
              · rw [lfdGet_insert_ne _ _ _ _ hk] at hr'
                exact hv id r' hr'
            · refine validMissingLib_mk _ _ _ _ ?_
              intro id r' hr'
              simp only [List.length_set]
              by_cases hk : wl.libraryID = id
              · subst hk
                rw [lfdGet_erase_self] at hr'
                cases hr'
              · rw [lfdGet_erase_ne _ _ _ hk] at hr'
                exact hm0 id r' hr'
          · simp only [libStep, h0, hm, if_pos hl2, hl2', LibFldDoc.updateMapGo,
              if_neg hemp] at h
            cases h
            constructor
            · refine validLibSlots_mk _ _ _ _ ?_
              intro id r' hr'
              simp only [List.length_set]
              by_cases hk : wl.libraryID = id
              · subst hk
                rw [lfdGet_insert_self] at hr'
                cases hr'
                exact hl2valid
              · rw [lfdGet_insert_ne _ _ _ _ hk] at hr'
                exact hv id r' hr'
            · refine validMissingLib_mk _ _ _ _ ?_
              intro id r' hr'
              simp only [List.length_set]
              by_cases hk : wl.libraryID = id
              · subst hk
                rw [lfdGet_insert_self] at hr'
                cases hr'
              · rw [lfdGet_insert_ne _ _ _ _ hk] at hr'
                exact hm0 id r' hr'
      · simp only [libStep, h0, hm, if_neg hl2] at h
        cases h
  · simp only [libStep, h0] at h
    cases h
    constructor
    · refine validLibSlots_mk _ _ _ _ ?_
      intro id r' hr'
      simp only [List.length_set]
      by_cases hk : wl.libraryID = id
      · subst hk
        rw [lfdGet_insert_self] at hr'
        cases hr'
        exact hv _ r h0
      · rw [lfdGet_insert_ne _ _ _ _ hk] at hr'
        exact hv id r' hr'
    · refine validMissingLib_mk _ _ _ _ ?_
      intro id r' hr'
      simp only [List.length_set]
      exact hm0 id r' hr'

theorem libStep_ids_keysub (st st' : RootState × Objects ObjRef) (wl : WebLibrary)
    (h : libStep st wl = some st') (hv : validLibSlots st.1) (hm0 : validMissingLib st.1)
    (id : Int) (hq : (mapLookup st'.2.ids id).isSome) :
    (mapLookup st.2.ids id).isSome ∨ id = wl.libraryID := by
  rcases h0 : (lfdGet st.1.idCache wl.libraryID).library with _ | r
  · rcases hm : mapLookup st.1.missing wl.libraryID with _ | lfd2
    · simp only [libStep, h0, hm] at h
      cases h
      rcases Objects.add_ids_sub _ _ _ _ _ hq with hs | hk
      · exact .inl hs
      · right
        rw [hk, heap_idOf_lib _ _ _ _ _ (by simp)]
    · have hlfd2 : lfdGet st.1.missing wl.libraryID = lfd2 := by
        rw [lfdGet, hm]
        rfl
      by_cases hl2 : lfd2.library ≠ none
      · rcases hl2' : lfd2.library with _ | l2
        · rw [hl2'] at hl2
          exact absurd rfl hl2
        · have hl2valid : l2 < st.1.heap.libs.length := by
            refine hm0 wl.libraryID l2 ?_
            rw [hlfd2, hl2']
          simp only [libStep, h0, hm, if_pos hl2, hl2'] at h
          cases h
          rcases Objects.add_ids_sub _ _ _ _ _ hq with hs | hk
          · exact .inl hs
          · right
            rw [hk, heap_idOf_lib _ _ _ _ _ hl2valid]
      · simp only [libStep, h0, hm, if_neg hl2] at h
        cases h
  · simp only [libStep, h0] at h
    cases h
    rcases Objects.add_ids_sub _ _ _ _ _ hq with hs | hk
    · exact .inl hs
    · right
      rw [hk, heap_idOf_lib _ _ _ _ _ (hv _ r h0)]

theorem libStep_names_keysub (st st' : RootState × Objects ObjRef) (wl : WebLibrary)
    (h : libStep st wl = some st') (hv : validLibSlots st.1) (hm0 : validMissingLib st.1)
    (nm : String) (hq : (mapLookup st'.2.names nm).isSome) :
    (mapLookup st.2.names nm).isSome ∨ nm = wl.libraryName := by
  rcases h0 : (lfdGet st.1.idCache wl.libraryID).library with _ | r
  · rcases hm : mapLookup st.1.missing wl.libraryID with _ | lfd2
    · simp only [libStep, h0, hm] at h
      cases h
      rcases Objects.add_names_sub _ _ _ _ _ hq with hs | hk
      · exact .inl hs
      · right
        rw [hk, heap_nameOf_lib _ _ _ _ _ (by simp)]
    · have hlfd2 : lfdGet st.1.missing wl.libraryID = lfd2 := by
        rw [lfdGet, hm]
        rfl
      by_cases hl2 : lfd2.library ≠ none
      · rcases hl2' : lfd2.library with _ | l2
        · rw [hl2'] at hl2
          exact absurd rfl hl2
        · have hl2valid : l2 < st.1.heap.libs.length := by
            refine hm0 wl.libraryID l2 ?_
            rw [hlfd2, hl2']
          simp only [libStep, h0, hm, if_pos hl2, hl2'] at h
          cases h
          rcases Objects.add_names_sub _ _ _ _ _ hq with hs | hk
          · exact .inl hs
          · right
            rw [hk, heap_nameOf_lib _ _ _ _ _ hl2valid]
      · simp only [libStep, h0, hm, if_neg hl2] at h
        cases h
  · simp only [libStep, h0] at h
    cases h
    rcases Objects.add_names_sub _ _ _ _ _ hq with hs | hk
    · exact .inl hs
    · right
      rw [hk, heap_nameOf_lib _ _ _ _ _ (hv _ r h0)]

theorem libFold_publishes :
    ∀ (wls : List WebLibrary) (st : RootState × Objects ObjRef) (wl : WebLibrary)
      (lref : Nat),
      wl ∈ wls →
      validLibSlots st.1 → validMissingLib st.1 →
      (lfdGet st.1.idCache wl.libraryID).library = some lref →
      (wls.map WebLibrary.libraryID).Nodup →
      (wls.map WebLibrary.libraryName).Nodup →
      (∀ wl' ∈ wls, mapLookup st.2.ids wl'.libraryID = none) →
      (∀ wl' ∈ wls, mapLookup st.2.names wl'.libraryName = none) →
      ∀ st', List.foldlM libStep st wls = some st' →
        pubAt st'.2 wl.libraryID wl.libraryName (.lib lref) := by
  intro wls
  induction wls with
  | nil =>
    intro st wl lref hmem
    cases hmem
  | cons hd rest ih =>
    intro st wl lref hmem hv hm0 hslot hnodid hnodnm hid0 hnm0 st' hfold
    rcases hstep : libStep st hd with _ | mid
    · simp only [List.foldlM, hstep] at hfold
      cases hfold
    · simp only [List.foldlM, hstep] at hfold
      rcases List.mem_cons.mp hmem with heq | hmem'
      · subst heq
        obtain ⟨st1, hstep', hpub⟩ := libStep_publishes st wl lref hslot hv
          (hid0 wl (List.mem_cons_self wl rest)) (hnm0 wl (List.mem_cons_self wl rest))
        rw [hstep'] at hstep
        cases hstep
        exact foldlM_libStep_preserves_pubAt rest _ st' hfold _ _ _ hpub
      · refine ih mid wl lref hmem' (libStep_libValid st mid hd hstep hv hm0).1
          (libStep_libValid st mid hd hstep hv hm0).2
          (((libStep_preserves st mid hd hstep) wl.libraryID).1 lref hslot)
          (List.Nodup.of_cons hnodid) (List.Nodup.of_cons hnodnm) ?_ ?_ st' hfold
        · intro wl' hw'
          rcases hlq : mapLookup mid.2.ids wl'.libraryID with _ | j
          · rfl
          · exfalso
            rcases libStep_ids_keysub st mid hd hstep hv hm0 wl'.libraryID
              (by rw [hlq]; rfl) with hs | he
            · rw [hid0 wl' (List.mem_cons_of_mem hd hw')] at hs
              cases hs
            · have hin : hd.libraryID ∈ rest.map WebLibrary.libraryID := by
                rw [← he]
                exact List.mem_map_of_mem WebLibrary.libraryID hw'
              rw [List.map_cons, List.nodup_cons] at hnodid
              exact hnodid.1 hin
        · intro wl' hw'
          rcases hlq : mapLookup mid.2.names wl'.libraryName with _ | j
          · rfl
          · exfalso
            rcases libStep_names_keysub st mid hd hstep hv hm0 wl'.libraryName
              (by rw [hlq]; rfl) with hs | he
            · rw [hnm0 wl' (List.mem_cons_of_mem hd hw')] at hs
              cases hs
            · have hin : hd.libraryName ∈ rest.map WebLibrary.libraryName := by
                rw [← he]
                exact List.mem_map_of_mem WebLibrary.libraryName hw'
              rw [List.map_cons, List.nodup_cons] at hnodnm
              exact hnodnm.1 hin

theorem rootUpdate_publishes_lib (s : RootState) (wls : List WebLibrary)
    (s' : RootState) (e : Option FetchErr) (h : rootUpdate s (.ok wls) = some (s', e))
    (wl : WebLibrary) (lref : Nat) (hmem : wl ∈ wls)
    (hnodid : (wls.map WebLibrary.libraryID).Nodup)
    (hnodnm : (wls.map WebLibrary.libraryName).Nodup)
    (hvL : validLibSlots s) (hvM : validMissingLib s)
    (hslot : (lfdGet s.idCache wl.libraryID).library = some lref) :
    childByNameOf s' .root wl.libraryName = some (.lib lref) := by
  rcases h2 : List.foldlM libStep (s, Objects.empty) wls with _ | st2
  · simp only [rootUpdate, bind, Option.bind, h2] at h
    cases h
  · rcases h4 : List.foldlM (rootMissingStep st2.2) st2.1 st2.1.objects.children
      with _ | s3
    · simp only [rootUpdate, bind, Option.bind, h2, h4] at h
      cases h
    · simp only [rootUpdate, bind, Option.bind, h2, h4, pure] at h
      cases h
      have hpub := libFold_publishes wls (s, Objects.empty) wl lref hmem hvL hvM hslot
        hnodid hnodnm (fun _ _ => rfl) (fun _ _ => rfl) st2 h2
      exact pubAt_childByName st2.2 wl.libraryID wl.libraryName (.lib lref) hpub

theorem childByNameOf_fld (s : RootState) (i : Nat) (n : FolderNode) (nm : String)
    (h : s.heap.flds[i]? = some n) :
    childByNameOf s (.fld i) nm = n.objs.childByName nm := by
  simp only [childByNameOf, h]

theorem documentWriterWrites_step (resp : PatchResp) (w w' : DocumentWriter)
    (p : Nat) (rest : List Nat) (h : DocumentWriter.write resp w p = (w', none)) :
    documentWriterWrites resp w (p :: rest) = documentWriterWrites resp w' rest := by
  simp only [documentWriterWrites, h]

theorem documentWriterUpload_close (resp : PatchResp) (writes : List Nat)
    (w : DocumentWriter) (h : documentWriterWrites resp ⟨0, [], false⟩ writes = (w, none)) :
    documentWriterUpload resp writes = DocumentWriter.close resp w := by
  simp only [documentWriterUpload, h]

/-! ## The claims -/

theorem folderUpdate_publishes_fld (s1 : RootState) (pf : Nat) (fetched : WebFolder)
    (s2 : RootState) (e : Option FetchErr)
    (hupd : folderUpdate s1 pf (.ok fetched) = some (s2, e))
    (wf : WebFolder) (fref : Nat) (hmem : wf ∈ fetched.embFolders)
    (hclean : cleanListing fetched.embFolders fetched.embDocuments)
    (hvF : validFolderSlots s1)
    (hslot : (lfdGet s1.idCache wf.folderID).folder = some fref) :
    childByNameOf s2 (.fld pf) wf.folderName = some (.fld fref) := by
  rcases hn : s1.heap.flds[pf]? with _ | node
  · simp only [folderUpdate, hn] at hupd
    cases hupd
  · by_cases hv : validUpdParent node.dotDot
    · rcases h2 : updateObjects s1 (.fld pf) node.objs fetched.embFolders fetched.embDocuments
        with _ | r
      · simp only [folderUpdate, hn, if_pos hv, bind, Option.bind, h2] at hupd
        cases hupd
      · simp only [folderUpdate, hn, if_pos hv, bind, Option.bind, h2, pure] at hupd
        cases hupd
        have hpub : pubAt r.2 wf.folderID wf.folderName (.fld fref) :=
          updateObjects_publishes_folder s1 (.fld pf) node.objs fetched.embFolders
            fetched.embDocuments r.1 r.2 (by rw [h2]) wf fref hmem hclean hvF hslot
        have hlt1 : pf < s1.heap.flds.length := (List.getElem?_eq_some.mp hn).1
        have hlen := updateObjects_flds_len s1 (.fld pf) node.objs fetched.embFolders
          fetched.embDocuments r.1 r.2 (by rw [h2])
        rcases hn2 : r.1.heap.flds[pf]? with _ | node2
        · rw [List.getElem?_eq_none_iff] at hn2
          omega
        · have hget := setFldObjs_get_self r.1.heap pf r.2 node2 hn2
          rw [childByNameOf_fld { r.1 with heap := r.1.heap.setFldObjs pf r.2 } pf
            ⟨node2.dotDot, node2.fld, r.2⟩ wf.folderName hget]
          exact pubAt_childByName r.2 wf.folderID wf.folderName (.fld fref) hpub
    · simp only [folderUpdate, hn, if_neg hv] at hupd
      cases hupd

theorem folderUpdate_publishes_doc (s1 : RootState) (pf : Nat) (fetched : WebFolder)
    (s2 : RootState) (e : Option FetchErr)
    (hupd : folderUpdate s1 pf (.ok fetched) = some (s2, e))
    (wd : WebDocument) (dref : Nat) (hmem : wd ∈ fetched.embDocuments)
    (hclean : cleanListing fetched.embFolders fetched.embDocuments)
    (hvF : validFolderSlots s1) (hvD : validDocSlots s1) (hvM : validMissingDoc s1)
    (hslot : (lfdGet s1.idCache wd.documentID).document = some dref) :
    childByNameOf s2 (.fld pf) wd.documentName = some (.doc dref) := by
  rcases hn : s1.heap.flds[pf]? with _ | node
  · simp only [folderUpdate, hn] at hupd
    cases hupd
  · by_cases hv : validUpdParent node.dotDot
    · rcases h2 : updateObjects s1 (.fld pf) node.objs fetched.embFolders fetched.embDocuments
        with _ | r
      · simp only [folderUpdate, hn, if_pos hv, bind, Option.bind, h2] at hupd
        cases hupd
      · simp only [folderUpdate, hn, if_pos hv, bind, Option.bind, h2, pure] at hupd
        cases hupd
        have hpub : pubAt r.2 wd.documentID wd.documentName (.doc dref) :=
          updateObjects_publishes_doc s1 (.fld pf) node.objs fetched.embFolders
            fetched.embDocuments r.1 r.2 (by rw [h2]) wd dref hmem hclean hvF hvD hvM hslot
        have hlt1 : pf < s1.heap.flds.length := (List.getElem?_eq_some.mp hn).1
        have hlen := updateObjects_flds_len s1 (.fld pf) node.objs fetched.embFolders
          fetched.embDocuments r.1 r.2 (by rw [h2])
        rcases hn2 : r.1.heap.flds[pf]? with _ | node2
        · rw [List.getElem?_eq_none_iff] at hn2
          omega
        · have hget := setFldObjs_get_self r.1.heap pf r.2 node2 hn2
          rw [childByNameOf_fld { r.1 with heap := r.1.heap.setFldObjs pf r.2 } pf
            ⟨node2.dotDot, node2.fld, r.2⟩ wd.documentName hget]
          exact pubAt_childByName r.2 wd.documentID wd.documentName (.doc dref) hpub
    · simp only [folderUpdate, hn, if_neg hv] at hupd
      cases hupd

/-- C1: across any sequence of refreshes, a raw id\'s `idCache` slot for
each kind keeps pointing at the same arena node, and a further refresh of
a parent whose fetched listing still reports that id — under any name —
publishes exactly that node into the parent\'s rebuilt child index: the
by-name lookup returns the identical instance (the same arena index,
tagged `.fld`, `.doc` or `.lib`), never a newly constructed node — for
folder children and document children of a folder refresh, and for
library children of a root refresh. -/
theorem C1_refresh_keeps_instance
    (s : RootState) (ops : List RefreshOp) (s1 : RootState)
    (hops : applyRefreshes s ops = some s1) (id : Int) :
    (∀ (fref pf : Nat) (fetched : WebFolder) (s2 : RootState) (e : Option FetchErr)
      (wf : WebFolder),
      (lfdGet s.idCache id).folder = some fref →
      folderUpdate s1 pf (.ok fetched) = some (s2, e) →
      wf ∈ fetched.embFolders → wf.folderID = id →
      cleanListing fetched.embFolders fetched.embDocuments →
      validFolderSlots s1 →
      (lfdGet s1.idCache id).folder = some fref ∧
        childByNameOf s2 (.fld pf) wf.folderName = some (.fld fref)) ∧
    (∀ (dref pf : Nat) (fetched : WebFolder) (s2 : RootState) (e : Option FetchErr)
      (wd : WebDocument),
      (lfdGet s.idCache id).document = some dref →
      folderUpdate s1 pf (.ok fetched) = some (s2, e) →
      wd ∈ fetched.embDocuments → wd.documentID = id →
      cleanListing fetched.embFolders fetched.embDocuments →
      validFolderSlots s1 → validDocSlots s1 → validMissingDoc s1 →
      (lfdGet s1.idCache id).document = some dref ∧
        childByNameOf s2 (.fld pf) wd.documentName = some (.doc dref)) ∧
    (∀ (lref : Nat) (wls : List WebLibrary) (s2 : RootState) (e : Option FetchErr)
      (wl : WebLibrary),
      (lfdGet s.idCache id).library = some lref →
      rootUpdate s1 (.ok wls) = some (s2, e) →
      wl ∈ wls → wl.libraryID = id →
      (wls.map WebLibrary.libraryID).Nodup →
      (wls.map WebLibrary.libraryName).Nodup →
      validLibSlots s1 → validMissingLib s1 →
      (lfdGet s1.idCache id).library = some lref ∧
        childByNameOf s2 .root wl.libraryName = some (.lib lref)) := by
  refine ⟨?_, ?_, ?_⟩
  · intro fref pf fetched s2 e wf hslot hupd hmem hid hclean hvF
    have hpers := ((applyRefreshes_preserves ops s s1 hops) id).2.1 fref hslot
    refine ⟨hpers, ?_⟩
    exact folderUpdate_publishes_fld s1 pf fetched s2 e hupd wf fref hmem hclean hvF
      (by rw [hid]; exact hpers)
  · intro dref pf fetched s2 e wd hslot hupd hmem hid hclean hvF hvD hvM
    have hpers := ((applyRefreshes_preserves ops s s1 hops) id).2.2 dref hslot
    refine ⟨hpers, ?_⟩
    exact folderUpdate_publishes_doc s1 pf fetched s2 e hupd wd dref hmem hclean hvF hvD
      hvM (by rw [hid]; exact hpers)
  · intro lref wls s2 e wl hslot hupd hmem hid hnodid hnodnm hvL hvM
    have hpers := ((applyRefreshes_preserves ops s s1 hops) id).1 lref hslot
    refine ⟨hpers, ?_⟩
    exact rootUpdate_publishes_lib s1 wls s2 e hupd wl lref hmem hnodid hnodnm hvL hvM
      (by rw [hid]; exact hpers)

/-- C1 witness scenario: library arena 0 (id 3), parent folder arena 0
(id 1) with child folder arena 1 (id 7) and child document arena 0
(id 9); the refreshes rename all three children. -/
def C1wit : RootState :=
  ⟨⟨[⟨⟨3, "Lib"⟩, Objects.empty⟩],
    [⟨.lib 0, ⟨1, "P", [], []⟩, Objects.empty⟩,
      ⟨.fld 0, ⟨7, "Old", [], []⟩, Objects.empty⟩],
    [⟨0, ⟨9, "Doc"⟩⟩]⟩,
    Objects.empty,
    [(1, ⟨none, some 0, none⟩), (7, ⟨none, some 1, none⟩),
      (9, ⟨none, none, some 0⟩), (3, ⟨some 0, none, none⟩)],
    []⟩

/-- The fetched listing of the C1 witness folder refresh. -/
def C1fetched : WebFolder := ⟨1, "P", [⟨7, "NewName", [], []⟩], [⟨9, "NewDoc"⟩]⟩

/-- The C1 witness folder refresh\'s outcome. -/
def C1out : RootState × Option FetchErr :=
  (folderUpdate C1wit 0 (.ok C1fetched)).getD (NewRoot, none)

/-- The C1 witness root refresh\'s outcome. -/
def C1outL : RootState × Option FetchErr :=
  (rootUpdate C1wit (.ok [⟨3, "NewLib"⟩])).getD (NewRoot, none)

/-- C1 witness: the renamed folder child is still arena node `.fld 1`,
the renamed document child still `.doc 0`, the renamed library still
`.lib 0`. -/
theorem C1_refresh_keeps_instance_wit :
    ((lfdGet C1wit.idCache 7).folder = some 1 ∧
      childByNameOf C1out.1 (.fld 0) "NewName" = some (.fld 1)) ∧
    ((lfdGet C1wit.idCache 9).document = some 0 ∧
      childByNameOf C1out.1 (.fld 0) "NewDoc" = some (.doc 0)) ∧
    ((lfdGet C1wit.idCache 3).library = some 0 ∧
      childByNameOf C1outL.1 .root "NewLib" = some (.lib 0)) :=
  ⟨(C1_refresh_keeps_instance C1wit [] C1wit rfl 7).1 1 0 C1fetched C1out.1 C1out.2
      ⟨7, "NewName", [], []⟩ rfl rfl (List.mem_cons_self _ _) rfl
      ⟨by decide, by decide⟩ (validFolderSlots_of_ok C1wit (by decide)),
    (C1_refresh_keeps_instance C1wit [] C1wit rfl 9).2.1 0 0 C1fetched C1out.1 C1out.2
      ⟨9, "NewDoc"⟩ rfl rfl (List.mem_cons_self _ _) rfl
      ⟨by decide, by decide⟩ (validFolderSlots_of_ok C1wit (by decide))
      (validDocSlots_of_ok C1wit (by decide)) (validMissingDoc_of_ok C1wit (by decide)),
    (C1_refresh_keeps_instance C1wit [] C1wit rfl 3).2.2 0 [⟨3, "NewLib"⟩] C1outL.1
      C1outL.2 ⟨3, "NewLib"⟩ rfl rfl (List.mem_cons_self _ _) rfl (by decide) (by decide)
      (validLibSlots_of_ok C1wit (by decide)) (validMissingLib_of_ok C1wit (by decide))⟩

/-- C2 scenario: folders `A` (arena 0, id 1) and `B` (arena 1, id 2);
child folder `C` (arena 2, id 7) currently indexed under `A`. -/
def C2s0 : RootState :=
  ⟨⟨[], [⟨.lib 0, ⟨1, "A", [], []⟩, ⟨[.fld 2], [(7, 0)], [("C", 0)]⟩⟩,
      ⟨.lib 0, ⟨2, "B", [], []⟩, Objects.empty⟩,
      ⟨.fld 0, ⟨7, "C", [], []⟩, Objects.empty⟩], []⟩,
    Objects.empty,
    [(1, ⟨none, some 0, none⟩), (2, ⟨none, some 1, none⟩), (7, ⟨none, some 2, none⟩)],
    []⟩

/-- The C2 refresh of `A` that no longer lists the child. -/
def C2emptyA : WebFolder := ⟨1, "A", [], []⟩

/-- The C2 refresh of `B` that lists the child's id 7. -/
def C2withC : WebFolder := ⟨2, "B", [⟨7, "C", [], []⟩], []⟩

/-- The state after the C2 refresh of `A`. -/
def C2s1 : RootState := ((applyRefresh C2s0 (.fldOp 0 (.ok C2emptyA))).getD (NewRoot, none)).1

/-- The state after the C2 refresh of `B`. -/
def C2s2 : RootState := ((applyRefresh C2s1 (.fldOp 1 (.ok C2withC))).getD (NewRoot, none)).1

/-- C2: dropping the child from `A` files folder slot 2 for id 7 in the
tombstone registry; the refresh of `B` reattaches the same node `.fld 2`
(found through `idCache`, whose entries are never deleted, so the
registry's reclaim branch never runs) — but the registry slot is *not*
cleared and the bundle is *not* removed, contradicting the claimed
clearing behaviour. -/
theorem C2_missing_slot_not_cleared :
    applyRefresh C2s0 (.fldOp 0 (.ok C2emptyA)) = some (C2s1, none) ∧
    (lfdGet C2s1.missing 7).folder = some 2 ∧
    applyRefresh C2s1 (.fldOp 1 (.ok C2withC)) = some (C2s2, none) ∧
    childByNameOf C2s2 (.fld 1) "C" = some (.fld 2) ∧
    (lfdGet C2s2.missing 7).folder = some 2 ∧
    (mapLookup C2s2.missing 7).isSome = true :=
  ⟨rfl, rfl, rfl, rfl, rfl, rfl⟩

/-- C3: a fetch error from the remote gateway makes the refresh return
that error with the state — hence the parent's prior child index —
literally unchanged, for each of the three updaters: no partially merged
index is ever published. -/
theorem C3_fetch_error_no_partial_merge (s : RootState) (e : FetchErr) :
    rootUpdate s (.error e) = some (s, some e) ∧
    (∀ lref node, s.heap.libs[lref]? = some node →
      libraryUpdate s lref (.error e) = some (s, some e)) ∧
    (∀ fref node, s.heap.flds[fref]? = some node → validUpdParent node.dotDot = true →
      folderUpdate s fref (.error e) = some (s, some e)) := by
  refine ⟨rfl, ?_, ?_⟩
  · intro lref node hn
    simp only [libraryUpdate, hn]
  · intro fref node hn hv
    simp only [folderUpdate, hn, if_pos hv]

/-- The state of the C3 witness: one library node and one folder node. -/
def C3wit : RootState :=
  ⟨⟨[⟨⟨1, "L"⟩, Objects.empty⟩], [⟨.lib 0, ⟨2, "F", [], []⟩, Objects.empty⟩], []⟩,
    Objects.empty, [], []⟩

/-- C3 witness at a concrete two-node state and fetch error 5. -/
theorem C3_fetch_error_no_partial_merge_wit :
    rootUpdate C3wit (.error 5) = some (C3wit, some 5) ∧
    libraryUpdate C3wit 0 (.error 5) = some (C3wit, some 5) ∧
    folderUpdate C3wit 0 (.error 5) = some (C3wit, some 5) :=
  ⟨(C3_fetch_error_no_partial_merge C3wit 5).1,
    (C3_fetch_error_no_partial_merge C3wit 5).2.1 0 ⟨⟨1, "L"⟩, Objects.empty⟩ rfl,
    (C3_fetch_error_no_partial_merge C3wit 5).2.2 0
      ⟨.lib 0, ⟨2, "F", [], []⟩, Objects.empty⟩ rfl rfl⟩

/-- C4 (amended): `newLargeDocument` — and a `DocumentWriter` upload whose
payload arrives in a single `Write` — issue exactly `ceil(S/P)` flushes
for `S > 0` and reach finalize, issue zero flushes for `S = 0` with
finalize proceeding directly, and no flush of *any* upload is ever empty.
(The claim's "for every upload" quantification fails for multi-`Write`
payloads — see the counterexample.) -/
theorem C4_flush_count (resp : PatchResp) (hresp : goodResp resp) (S : Nat) :
    (newLargeDocument resp S).1.length = (S + PatchSize - 1) / PatchSize ∧
    (newLargeDocument resp S).2 = (none, true) ∧
    documentWriterUpload resp [S] = (⟨0, chunkList S, true⟩, none) ∧
    (chunkList S).length = (S + PatchSize - 1) / PatchSize ∧
    (S = 0 → (newLargeDocument resp S).1 = [] ∧
      (documentWriterUpload resp [S]).1.flushed = []) ∧
    (∀ writes x, x ∈ (documentWriterUpload resp writes).1.flushed → 0 < x) := by
  have h1 : newLargeDocument resp S = (chunkList S, none, true) := by
    rw [newLargeDocument, nldLoop_good hresp S []]
    simp
  refine ⟨?_, ?_, documentWriterUpload_single hresp S, chunkList_length S, ?_, ?_⟩
  · rw [h1]
    exact chunkList_length S
  · rw [h1]
  · intro h0
    subst h0
    refine ⟨?_, ?_⟩
    · rw [h1, chunkList_zero]
    · rw [documentWriterUpload_single hresp 0, chunkList_zero]
  · exact fun writes x hx => documentWriterUpload_flushes_pos resp writes x hx

/-- C4 witness at `okResp`, `S = 786432`: two flushes, `ceil(S/P) = 2`. -/
theorem C4_flush_count_wit :
    (newLargeDocument okResp 786432).1.length = 2 ∧
    documentWriterUpload okResp [786432] = (⟨0, [524288, 262144], true⟩, none) := by
  obtain ⟨h1, h2, h3, h4, h5, h6⟩ := C4_flush_count okResp goodResp_okResp 786432
  constructor
  · rw [h1]
    decide
  · rw [h3, chunkList_786432]

/-- C4 counterexample: a 1.5 MiB payload delivered as two 768 KiB writes
is flushed in 4 PATCHes, not `ceil(S/P) = 3` — the slow path flushes the
partial tail chunk of every `Write` even though the buffer is not full. -/
theorem C4_counterexample :
    documentWriterUpload okResp [786432, 786432] =
      (⟨0, [524288, 262144, 524288, 262144], true⟩, none) ∧
    (786432 + 786432 + PatchSize - 1) / PatchSize = 3 := by
  have hgt : PatchSize < 786432 := by decide
  have hw1 := write_large goodResp_okResp [] false 786432 hgt
  have hw2 := write_large goodResp_okResp [524288, 262144] false 786432 hgt
  rw [chunkList_786432] at hw1 hw2
  simp only [List.nil_append, List.cons_append] at hw1 hw2
  have hws : documentWriterWrites okResp ⟨0, [], false⟩ [786432, 786432] =
      (⟨0, [524288, 262144, 524288, 262144], false⟩, none) := by
    rw [documentWriterWrites_step okResp _ _ 786432 [786432] hw1,
      documentWriterWrites_step okResp _ _ 786432 [] hw2]
    rfl
  constructor
  · rw [documentWriterUpload_close okResp [786432, 786432] _ hws]
    exact close_empty okResp _ rfl
  · decide

/-- C5 (amended): the stall check compares the parsed `CurrentSize`
against zero, not against the previous total: a flush whose response
reports size zero fails at once with the distinct `.stall` error — that
flush is not retried and no further flush is issued (exactly one more
flush is recorded, the one that stalled) — in the `newLargeDocument`
loop, in `Close`, and in the `Write` slow path.  (A non-increasing but
nonzero reported size is accepted: see the counterexample.) -/
theorem C5_stall_on_zero (resp : PatchResp) (S : Nat) (hS : 0 < S)
    (h0 : resp 0 = some 0) :
    newLargeDocument resp S = ([min PatchSize S], some .stall, false) ∧
    (∀ w : DocumentWriter, 0 < w.bufLen → resp w.flushed.length = some 0 →
      DocumentWriter.close resp w =
        (⟨0, w.flushed ++ [w.bufLen], w.finalized⟩, some .stall)) ∧
    (∀ (w : DocumentWriter) (rem : Nat), 0 < rem → resp w.flushed.length = some 0 →
      DocumentWriter.writeLoop resp w rem =
        (⟨0, w.flushed ++ [w.bufLen + min (PatchSize - w.bufLen) rem], w.finalized⟩,
          some .stall)) := by
  refine ⟨?_, ?_, ?_⟩
  · rw [newLargeDocument, nldLoop_stall resp [] S hS h0]
    simp
  · intro w hb hw
    exact close_stall resp w hb hw
  · intro w rem hr hw
    exact writeLoop_stall resp w rem hr hw

/-- An oracle that always parses `CurrentSize` as zero. -/
def zeroResp : PatchResp := fun _ => some 0

/-- C5 witness: the always-zero oracle stalls a 100-byte upload after one
flush, and stalls `Close` of a 5-byte buffer after its single flush. -/
theorem C5_stall_on_zero_wit :
    newLargeDocument zeroResp 100 = ([100], some .stall, false) ∧
    DocumentWriter.close zeroResp ⟨5, [], false⟩ = (⟨0, [5], false⟩, some .stall) := by
  obtain ⟨h1, h2, h3⟩ := C5_stall_on_zero zeroResp 100 (by decide) rfl
  refine ⟨?_, ?_⟩
  · rw [h1]
    decide
  · exact h2 ⟨5, [], false⟩ (by decide) rfl

/-- C5 counterexample to the non-increase trigger: an oracle that always
reports the same nonzero total 100 — the size never increases after the
first flush — lets a three-chunk upload issue all three flushes and
finalize with no stall error. -/
theorem C5_counterexample :
    newLargeDocument stagnantResp 1572864 = ([524288, 524288, 524288], none, true) ∧
    stagnantResp 0 = some 100 ∧ stagnantResp 1 = some 100 := by
  refine ⟨?_, rfl, rfl⟩
  rw [newLargeDocument, nldLoop_good goodResp_stagnantResp 1572864 [], chunkList_1572864]
  simp

/-- The first C6 borrow: a fresh client for `("dc", "Xabc")`. -/
def C6s1 : Nat × ClientPoolState := NewClientPool.client "dc" "Xabc"

/-- The C6 pool after returning that client. -/
def C6s2 : ClientPoolState := C6s1.2.cache C6s1.1

/-- C6: `Cache` slices one byte too many off the stored Authorization
value (`len(PhoenixTokenPrefix)+1`), so the client borrowed for token
"Xabc" is filed under token "abc": borrowing "Xabc" again constructs a
fresh client (arena 1) instead of reusing arena 0 — LIFO reuse fails —
and borrowing "abc" is handed the connection cached under the other
key. -/
theorem C6_cache_key_mismatch :
    C6s1.1 = 0 ∧
    (C6s2.client "dc" "Xabc").1 = 1 ∧
    (C6s2.client "dc" "abc").1 = 0 ∧
    (NewClient "dc" "Xabc").phoenixToken.drop (phoenixHeaderToken.length + 1) = "abc" := by
  refine ⟨?_, ?_, ?_, ?_⟩ <;> decide

/-- The C7 gateway: every fetch succeeds with an empty listing. -/
def C7g : Gateway := ⟨.ok [], fun _ => .ok [], fun _ => .ok ⟨0, "", [], []⟩⟩

theorem resolveLoop_hit (g : Gateway) (s : RootState) (o : ObjRef) (part : String)
    (rest : List String) (c : ObjRef) (hc : childByNameOf s o part = some c) :
    resolveLoop g s o (part :: rest) = resolveLoop g s c rest := by
  simp [resolveLoop, isParentRef, hc]

theorem resolveLoop_panic (g : Gateway) (s : RootState) (o : ObjRef) (part : String)
    (rest : List String) (hc : childByNameOf s o part = none)
    (hu : updateNode g s o = none) :
    resolveLoop g s o (part :: rest) = none := by
  simp [resolveLoop, isParentRef, hc, hu]

theorem resolveLoop_fetchErr (g : Gateway) (s : RootState) (o : ObjRef) (part : String)
    (rest : List String) (s' : RootState) (e : FetchErr)
    (hc : childByNameOf s o part = none) (hu : updateNode g s o = some (s', some e)) :
    resolveLoop g s o (part :: rest) = some (.error (.fetch e), s', [o]) := by
  simp [resolveLoop, isParentRef, hc, hu]

theorem resolveLoop_notfound (g : Gateway) (s : RootState) (o : ObjRef) (part : String)
    (rest : List String) (s' : RootState)
    (hc : childByNameOf s o part = none) (hu : updateNode g s o = some (s', none))
    (hc2 : childByNameOf s' o part = none) :
    resolveLoop g s o (part :: rest) = some (.error (.childNotFound part), s', [o]) := by
  simp [resolveLoop, isParentRef, hc, hu, hc2]

theorem resolveLoop_retryHit (g : Gateway) (s : RootState) (o : ObjRef) (part : String)
    (rest : List String) (s' : RootState) (c : ObjRef)
    (hc : childByNameOf s o part = none) (hu : updateNode g s o = some (s', none))
    (hc2 : childByNameOf s' o part = some c) :
    resolveLoop g s o (part :: rest) =
      (resolveLoop g s' c rest).map fun r => (r.1, r.2.1, o :: r.2.2) := by
  rcases hrec : resolveLoop g s' c rest with _ | r
  · simp [resolveLoop, isParentRef, hc, hu, hc2, hrec]
  · simp [resolveLoop, isParentRef, hc, hu, hc2, hrec]

theorem resolveLoop_no_notParent (g : Gateway) :
    ∀ (path : List String) (s : RootState) (o : ObjRef) (res : Except ResolveErr ObjRef)
      (s'' : RootState) (tr : List ObjRef),
      resolveLoop g s o path = some (res, s'', tr) → res ≠ .error .notParent := by
  intro path
  induction path with
  | nil =>
    intro s o res s'' tr h hcon
    simp only [resolveLoop] at h
    cases h
    cases hcon
  | cons part rest ih =>
    intro s o res s'' tr h hcon
    subst hcon
    rcases hc : childByNameOf s o part with _ | c
    · rcases hu : updateNode g s o with _ | se
      · rw [resolveLoop_panic g s o part rest hc hu] at h
        cases h
      · rcases se with ⟨s', oe⟩
        rcases oe with _ | e2
        · rcases hc2 : childByNameOf s' o part with _ | c2
          · rw [resolveLoop_notfound g s o part rest s' hc hu hc2] at h
            cases h
          · rw [resolveLoop_retryHit g s o part rest s' c2 hc hu hc2] at h
            rcases hrec : resolveLoop g s' c2 rest with _ | r
            · rw [hrec] at h
              cases h
            · obtain ⟨res2, s3, tr3⟩ := r
              rw [hrec] at h
              cases h
              exact ih s' c2 (.error .notParent) s3 tr3 hrec rfl
        · rw [resolveLoop_fetchErr g s o part rest s' e2 hc hu] at h
          cases h
    · rw [resolveLoop_hit g s o part rest c hc] at h
      exact ih s c (.error .notParent) s'' tr h rfl

/-- C7 (amended): per path component the loop probes the index once; on
a miss it refreshes that node exactly once and retries the lookup
exactly once, a second miss failing with `ChildNotFound` carrying the
component name (the trace `[o]` records the single refresh, and nothing
follows it); a retry hit prepends that single refresh to the tail's
trace.  The claimed type-mismatch failure is dead code: every tree node
satisfies the `o.(Parent)` assertion — documents through `ChildByName`
promoted from the embedded containing `*Folder` — so resolution never
returns the "expected folder or library" error. -/
theorem C7_single_refresh_then_not_found (g : Gateway) (s : RootState) (o : ObjRef)
    (part : String) (rest : List String) :
    (∀ c, childByNameOf s o part = some c →
      resolveLoop g s o (part :: rest) = resolveLoop g s c rest) ∧
    (∀ s', childByNameOf s o part = none → updateNode g s o = some (s', none) →
      childByNameOf s' o part = none →
      resolveLoop g s o (part :: rest) = some (.error (.childNotFound part), s', [o])) ∧
    (∀ s' c, childByNameOf s o part = none → updateNode g s o = some (s', none) →
      childByNameOf s' o part = some c →
      resolveLoop g s o (part :: rest) =
        (resolveLoop g s' c rest).map fun r => (r.1, r.2.1, o :: r.2.2)) ∧
    isParentRef o = true ∧
    (∀ (path : List String) (s0 : RootState) (o0 : ObjRef)
      (res : Except ResolveErr ObjRef) (s'' : RootState) (tr : List ObjRef),
      resolveLoop g s0 o0 path = some (res, s'', tr) → res ≠ .error .notParent) :=
  ⟨fun c hc => resolveLoop_hit g s o part rest c hc,
    fun s' hc hu hc2 => resolveLoop_notfound g s o part rest s' hc hu hc2,
    fun s' c hc hu hc2 => resolveLoop_retryHit g s o part rest s' c hc hu hc2,
    rfl,
    resolveLoop_no_notParent g⟩

/-- C7 witness: resolving "x" at the empty root refreshes the root once
and fails with `ChildNotFound "x"`. -/
theorem C7_single_refresh_then_not_found_wit :
    resolveLoop C7g NewRoot .root ["x"] =
      some (.error (.childNotFound "x"), NewRoot, [.root]) :=
  (C7_single_refresh_then_not_found C7g NewRoot .root "x" []).2.1 NewRoot rfl rfl rfl

/-- The C7 counterexample state: folder arena 0 (id 1, "F") holding
document arena 0 (id 9, "D") in its index. -/
def C7ds : RootState :=
  ⟨⟨[], [⟨.lib 0, ⟨1, "F", [], []⟩, ⟨[.doc 0], [(9, 0)], [("D", 0)]⟩⟩],
      [⟨0, ⟨9, "D"⟩⟩]⟩, Objects.empty, [], []⟩

/-- C7 counterexample to the claim's type-mismatch conjunct: a
`*Document` does support child lookup — the `o.(Parent)` assertion
succeeds and the promoted `ChildByName` consults the containing folder's
index — so resolving a component against a document succeeds, with no
"expected folder or library" error and no fetch. -/
theorem C7_counterexample :
    isParentRef (.doc 0) = true ∧
    childByNameOf C7ds (.doc 0) "D" = some (.doc 0) ∧
    resolveLoop C7g C7ds (.doc 0) ["D"] = some (.ok (.doc 0), C7ds, []) :=
  ⟨rfl, rfl, rfl⟩

/-- The C8 collection: three children keyed by id and name. -/
def C8o : Objects (Int × String) :=
  ⟨[(1, "a"), (2, "b"), (3, "c")], [(1, 0), (2, 1), (3, 2)],
    [("a", 0), ("b", 1), ("c", 2)]⟩

/-- What `del` actually leaves behind in the C8 scenario. -/
def C8del : Objects (Int × String) :=
  ⟨[(1, "a"), (3, "c"), (3, "c")], [(1, 0), (2, 1)], [("a", 0), ("b", 1)]⟩

/-- C8: removing the interior child `(2, "b")` desynchronizes the index:
the tail is shifted but the children slice is never truncated, and the
closing key deletion removes the *moved last child's* keys — `(3, "c")`
is no longer found by id or by name, the removed id's stale map entry now
resolves to the wrong child, and the children sequence holds a
duplicate. -/
theorem C8_del_desyncs_index :
    Objects.del Prod.fst Prod.snd C8o (2, "b") = some (C8del, true) ∧
    C8del.childByID 3 = none ∧
    C8del.childByName "c" = none ∧
    C8del.childByID 2 = some (3, "c") ∧
    C8del.childByName "b" = some (3, "c") ∧
    C8del.children = [(1, "a"), (3, "c"), (3, "c")] :=
  ⟨rfl, rfl, rfl, rfl, rfl, rfl⟩

/-- C9: `EntryByName` returns `(entry, true)` exactly when the requested
name is *absent* from the name index — the entry returned being
`items[0]`, the position the map's zero value denotes — and returns
`(nil, false)` when the name is present: the found / not-found branches
are inverted relative to a straightforward present/absent lookup. -/
theorem C9_entryByName_inverted {E : Type} (e : FsEntries E) (name : FsEntryName) :
    ((mapLookup e.names name).isSome = true → e.entryByName name = some (none, false)) ∧
    (∀ x, mapLookup e.names name = none → e.items[0]? = some x →
      e.entryByName name = some (some x, true)) := by
  constructor
  · intro h
    obtain ⟨i, hi⟩ := Option.isSome_iff_exists.mp h
    simp only [FsEntries.entryByName, hi]
  · intro x hl hx
    simp only [FsEntries.entryByName, hl, hx]

/-- The C9 entry collection: one item, indexed under folder name "f". -/
def C9e : FsEntries Nat := ⟨[42], [((.folderKind, "f"), 0)], []⟩

/-- C9 witness: the present name returns `(nil, false)`; an absent name
returns the zero-index item with `true`. -/
theorem C9_entryByName_inverted_wit :
    C9e.entryByName (.folderKind, "f") = some (none, false) ∧
    C9e.entryByName (.folderKind, "g") = some (some 42, true) :=
  ⟨(C9_entryByName_inverted C9e (.folderKind, "f")).1 rfl,
    (C9_entryByName_inverted C9e (.folderKind, "g")).2 42 rfl rfl⟩

/-- The C10 collection: one child with id 1, name "a". -/
def C10o : Objects (Int × String) := ⟨[(1, "a")], [(1, 0)], [("a", 0)]⟩

/-- The C10 parent state: a single folder node, empty caches. -/
def C10s : RootState :=
  ⟨⟨[], [⟨.lib 0, ⟨1, "P", [], []⟩, Objects.empty⟩], []⟩, Objects.empty, [], []⟩

/-- The C10 merge outcome for the id-colliding listing. -/
def C10out : RootState × Objects ObjRef :=
  (updateObjects C10s (.fld 0) Objects.empty [⟨5, "F", [], []⟩] [⟨5, "D"⟩]).getD
    (NewRoot, Objects.empty)

/-- C10: `add` refuses a child whose raw integer id or whose name is
already indexed, returning the collection unchanged with `added = false`;
and because the id map is keyed on the bare integer, a fetched listing
with a folder and a document both carrying id 5 under one parent indexes
only the folder — the document is silently dropped from the fresh
index. -/
theorem C10_raw_id_collision {α : Type} (idf : α → Int) (namef : α → String)
    (o : Objects α) (c : α) :
    ((mapLookup o.ids (idf c)).isSome ∨ (mapLookup o.names (namef c)).isSome →
      Objects.add idf namef o c = (o, 0, false)) ∧
    (∀ s' objs',
      updateObjects C10s (.fld 0) Objects.empty [⟨5, "F", [], []⟩] [⟨5, "D"⟩] =
        some (s', objs') →
      objs'.children = [.fld 1] ∧ objs'.childByID 5 = some (.fld 1) ∧
        objs'.childByName "D" = none) := by
  constructor
  · exact Objects.add_dup idf namef o c
  · intro s' objs' h
    have hout : updateObjects C10s (.fld 0) Objects.empty [⟨5, "F", [], []⟩] [⟨5, "D"⟩] =
        some (C10out.1, C10out.2) := rfl
    rw [hout] at h
    cases h
    exact ⟨rfl, rfl, rfl⟩

/-- C10 witness: a duplicate raw id is refused at a concrete collection,
and the concrete folder/document id-5 listing keeps only the folder. -/
theorem C10_raw_id_collision_wit :
    Objects.add Prod.fst Prod.snd C10o (1, "z") = (C10o, 0, false) ∧
    C10out.2.children = [.fld 1] ∧ C10out.2.childByID 5 = some (.fld 1) ∧
    C10out.2.childByName "D" = none :=
  ⟨(C10_raw_id_collision Prod.fst Prod.snd C10o (1, "z")).1 (.inl rfl),
    (C10_raw_id_collision Prod.fst Prod.snd C10o (1, "z")).2 C10out.1 C10out.2 rfl⟩

end Sharebase
